import Mathlib

/-!
Verification of the bank-statement transaction parser
(`parseTransaction`, `parseMultipleTransactions` and their helpers).

The TypeScript source is shallowly embedded: strings are `List Char`,
JavaScript numbers are `ℚ` (the reachable arithmetic is exact decimal
arithmetic), JavaScript `Date` values are `Int` milliseconds since the
Unix epoch, and thrown exceptions are `Option` failures.  Each regular
expression of the source is compiled by hand into a terminating matcher
with the same leftmost-match / greedy / lazy backtracking semantics on
the character classes it uses.
-/

namespace TxParser

/-! ### JavaScript character classes and string primitives -/

/-- The JavaScript whitespace set: the characters matched by the regex
class `\s` and removed by `String.prototype.trim` (WhiteSpace plus
LineTerminator code points). -/
def isJsWs (c : Char) : Bool :=
  let n := c.toNat
  n == 0x20 || n == 0x09 || n == 0x0A || n == 0x0B || n == 0x0C || n == 0x0D ||
  n == 0xA0 || n == 0x1680 || (0x2000 ≤ n && n ≤ 0x200A) ||
  n == 0x2028 || n == 0x2029 || n == 0x202F || n == 0x205F || n == 0x3000 || n == 0xFEFF

/-- Characters matched by the regex metacharacter `.` (without the `s`
flag): everything except the four line terminators. -/
def isDotChar (c : Char) : Bool :=
  let n := c.toNat
  !(n == 0x0A || n == 0x0D || n == 0x2028 || n == 0x2029)

/-- The regex class `\d`, code points 48–57. -/
def isDigitCh (c : Char) : Bool :=
  48 ≤ c.toNat && c.toNat ≤ 57

/-- The regex class `[A-Za-z]`. -/
def isAlphaCh (c : Char) : Bool :=
  (65 ≤ c.toNat && c.toNat ≤ 90) || (97 ≤ c.toNat && c.toNat ≤ 122)

/-- Word characters, the regex class `\w`. -/
def isWordCh (c : Char) : Bool :=
  isDigitCh c || isAlphaCh c || c == '_'

/-- ASCII lowercasing; the case-insensitive `i` regex flag and
`toLowerCase` only act on ASCII letters in the inputs this parser deals
with (its literals are all ASCII). -/
def lowerCh (c : Char) : Char :=
  if 65 ≤ c.toNat && c.toNat ≤ 90 then Char.ofNat (c.toNat + 32) else c

/-- `String.prototype.trim`. -/
def jsTrim (l : List Char) : List Char :=
  ((l.dropWhile isJsWs).reverse.dropWhile isJsWs).reverse

/-- Case-insensitive literal match at the head of `l`; the pattern `p`
is given pre-lowercased.  Returns the rest of `l` on success. -/
def litCI : List Char → List Char → Option (List Char)
  | [], l => some l
  | _ :: _, [] => none
  | p :: ps, c :: cs => if lowerCh c == p then litCI ps cs else none

/-- Substring occurrence test on character lists. -/
def hasSubList (needle : List Char) : List Char → Bool
  | [] => needle.isEmpty
  | c :: cs => needle.isPrefixOf (c :: cs) || hasSubList needle cs

/-- Case-insensitive substring test, as in an unanchored `/lit/i` regex
test or `toLowerCase().includes(lit)`. -/
def containsCI (hay needle : List Char) : Bool :=
  hasSubList (needle.map lowerCh) (hay.map lowerCh)

/-- `String.prototype.split(sep)` for a single-character separator. -/
def splitCh (sep : Char) : List Char → List (List Char)
  | [] => [[]]
  | c :: cs =>
    if c == sep then [] :: splitCh sep cs
    else
      match splitCh sep cs with
      | [] => [[c]]
      | h :: t => (c :: h) :: t

/-- `replace(/\r\n/g, ...)` then `replace(/\r/g, ...)`: both collapse to
mapping each `\r\n` pair and each lone `\r` to a single `\n`. -/
def replaceCR : List Char → List Char
  | [] => []
  | '\r' :: '\n' :: r => '\n' :: replaceCR r
  | '\r' :: r => '\n' :: replaceCR r
  | c :: r => c :: replaceCR r

/-- `text.trim().replace(/\r\n/g, '\n').replace(/\r/g, '\n')`. -/
def normalize (text : List Char) : List Char :=
  replaceCR (jsTrim text)

/-- `normalized.split('\n').map(trim).filter(nonempty)`. -/
def mkLines (n : List Char) : List (List Char) :=
  ((splitCh '\n' n).map jsTrim).filter (fun l => !l.isEmpty)

/-! ### JavaScript number parsing

JavaScript numbers reachable through this parser are exact decimal
values.  They are modelled by an unnormalized pair `num / 10 ^ exp10`;
the rational value of a number is `JsNum.val`.  The pair representation
keeps every arithmetic step a plain integer operation (float rounding
never occurs on the decimals this parser produces with at most a few
digits, and the sign manipulations `Math.abs` and `* -1` are exact on
floats of any size). -/

def digitsToNat (l : List Char) : Nat :=
  l.foldl (fun a c => a * 10 + (c.toNat - 48)) 0

structure JsNum where
  num : Int
  exp10 : Nat
deriving DecidableEq

/-- The rational value of a parsed JavaScript number. -/
def JsNum.val (x : JsNum) : ℚ :=
  (x.num : ℚ) / (10 : ℚ) ^ x.exp10

/-- `x * -1`. -/
def JsNum.negate (x : JsNum) : JsNum :=
  ⟨-x.num, x.exp10⟩

/-- `Math.abs(x)`. -/
def JsNum.absVal (x : JsNum) : JsNum :=
  ⟨|x.num|, x.exp10⟩

/-- The unsigned decimal part of `parseFloat`: longest prefix of digits,
an optional point with digit run, requiring at least one digit overall.
Returns the value together with the unconsumed rest (for the optional
exponent part). -/
def parsePosMantissa (t : List Char) : Option (JsNum × List Char) :=
  let ip := t.takeWhile isDigitCh
  let r1 := t.drop ip.length
  match r1 with
  | '.' :: r2 =>
    let fp := r2.takeWhile isDigitCh
    if ip.isEmpty && fp.isEmpty then none
    else some (⟨(digitsToNat ip * 10 ^ fp.length + digitsToNat fp : Nat), fp.length⟩,
               r2.drop fp.length)
  | _ => if ip.isEmpty then none else some (⟨(digitsToNat ip : Nat), 0⟩, r1)

def expDigits (m : JsNum) (negE : Bool) (r : List Char) : JsNum :=
  let ds := r.takeWhile isDigitCh
  if ds.isEmpty then m
  else if negE then ⟨m.num, m.exp10 + digitsToNat ds⟩
  else ⟨m.num * (10 : Int) ^ digitsToNat ds, m.exp10⟩

def applyExp (m : JsNum) : List Char → JsNum
  | 'e' :: '+' :: r => expDigits m false r
  | 'e' :: '-' :: r => expDigits m true r
  | 'e' :: r => expDigits m false r
  | 'E' :: '+' :: r => expDigits m false r
  | 'E' :: '-' :: r => expDigits m true r
  | 'E' :: r => expDigits m false r
  | _ => m

def jsParseFloatCore : List Char → Option JsNum
  | [] => none
  | c :: r =>
    if c == '-' then (parsePosMantissa r).map (fun p => JsNum.negate (applyExp p.1 p.2))
    else if c == '+' then (parsePosMantissa r).map (fun p => applyExp p.1 p.2)
    else (parsePosMantissa (c :: r)).map (fun p => applyExp p.1 p.2)

/-- JavaScript `parseFloat`: skip leading whitespace, optional sign,
then the longest valid decimal-literal prefix; `none` models `NaN`.
The `Infinity` literal is outside the decimal model; no reachable call
site produces it. -/
def jsParseFloat (s : List Char) : Option JsNum :=
  jsParseFloatCore (s.dropWhile isJsWs)

def jsParseIntDecCore : List Char → Option Int
  | [] => none
  | c :: r =>
    if c == '-' then
      (let ds := r.takeWhile isDigitCh
       if ds.isEmpty then none else some (-(digitsToNat ds : Int)))
    else if c == '+' then
      (let ds := r.takeWhile isDigitCh
       if ds.isEmpty then none else some (digitsToNat ds : Int))
    else
      (let ds := (c :: r).takeWhile isDigitCh
       if ds.isEmpty then none else some (digitsToNat ds : Int))

/-- JavaScript `parseInt(s)` restricted to its decimal behaviour: skip
whitespace, optional sign, longest digit prefix.  Every call site in
the parser passes a capture of an all-digit regex group, which never
triggers the hexadecimal `0x` special case. -/
def jsParseIntDec (s : List Char) : Option Int :=
  jsParseIntDecCore (s.dropWhile isJsWs)

/-! ### The JavaScript UTC date model -/

/-- Days from 1970-01-01 to the proleptic Gregorian date y-m-d
(m ∈ 1..12), the standard civil-from-days algorithm, as used by the
ECMAScript `MakeDay` operation. -/
def daysFromCivil (y m d : Int) : Int :=
  let y1 := y - (if m ≤ 2 then 1 else 0)
  let era := Int.fdiv y1 400
  let yoe := y1 - era * 400
  let mp := m + (if m > 2 then -3 else 9)
  let doy := Int.fdiv (153 * mp + 2) 5 + d - 1
  let doe := yoe * 365 + Int.fdiv yoe 4 - Int.fdiv yoe 100 + doy
  era * 146097 + doe - 719468

/-- Milliseconds-since-epoch of the UTC midnight of a calendar date.
This is the specification-level meaning of "the UTC calendar date
y-m-d with zero time-of-day". -/
def utcMidnightMs (y m d : Int) : Int :=
  86400000 * daysFromCivil y m d

/-- ECMAScript `Date.UTC(year, monthIndex, day)` as a millisecond
timestamp: the two-digit-year rule (0..99 ↦ 1900..1999), then `MakeDay`
month and day rollover.  The reachable years (four-digit captures)
never leave the representable time range, so the `TimeClip` NaN case is
not modelled. -/
def jsDateUTC (y m d : Int) : Int :=
  let yr := if 0 ≤ y && y ≤ 99 then y + 1900 else y
  let q := Int.fdiv m 12
  86400000 * (daysFromCivil (yr + q) (m - q * 12 + 1) 1 + (d - 1))

def daysInMonth (y m : Int) : Int :=
  if m = 2 then
    if (Int.emod y 4 = 0 && Int.emod y 100 ≠ 0) || Int.emod y 400 = 0 then 29 else 28
  else if m = 4 || m = 6 || m = 9 || m = 11 then 30
  else 31

def twoDigitNum : List Char → Option (Int × List Char)
  | a :: b :: r => if isDigitCh a && isDigitCh b then some ((digitsToNat [a, b] : Int), r) else none
  | _ => none

/-- The `new Date(dateStr)` fallback of the date parser, modelled by the
UTC (`Z`-offset) instance of the ECMAScript Date Time String Format:
`YYYY-MM-DDTHH:MM:SSZ`.  Strings outside this subset are interpreted in
host-local time or by implementation-specific heuristics, which have no
portable meaning; they are modelled as an unparseable date (`NaN`). -/
def jsNewDate (s : List Char) : Option Int :=
  match s with
  | y1 :: y2 :: y3 :: y4 :: '-' :: r1 =>
    if isDigitCh y1 && isDigitCh y2 && isDigitCh y3 && isDigitCh y4 then
      match twoDigitNum r1 with
      | some (mo, '-' :: r2) =>
        match twoDigitNum r2 with
        | some (dy, 'T' :: r3) =>
          match twoDigitNum r3 with
          | some (hh, ':' :: r4) =>
            match twoDigitNum r4 with
            | some (mi, ':' :: r5) =>
              match twoDigitNum r5 with
              | some (ss, ['Z']) =>
                let yv := (digitsToNat [y1, y2, y3, y4] : Int)
                if 1 ≤ mo && mo ≤ 12 && 1 ≤ dy && dy ≤ daysInMonth yv mo &&
                    hh ≤ 23 && mi ≤ 59 && ss ≤ 59 then
                  some (86400000 * daysFromCivil yv mo dy +
                        3600000 * hh + 60000 * mi + 1000 * ss)
                else none
              | _ => none
            | _ => none
          | _ => none
        | _ => none
      | _ => none
    else none
  | _ => none

/-! ### The date parser (`parseDate`) -/

/-- Anchored match of `\d{1,2}` followed by a required `/`, with the
greedy two-digit alternative preferred; returns the digit capture and
the rest after the slash. -/
def digitsThenSlash : List Char → Option (List Char × List Char)
  | a :: rest =>
    if isDigitCh a then
      match rest with
      | b :: rest2 =>
        if isDigitCh b then
          match rest2 with
          | '/' :: r => some ([a, b], r)
          | _ => none
        else if b == '/' then some ([a], rest2) else none
      | [] => none
    else none
  | [] => none

/-- Anchored match of `\d{1,2}` that must be followed by a whitespace
character (which is not consumed). -/
def digitsThenWs : List Char → Option (List Char × List Char)
  | a :: rest =>
    if isDigitCh a then
      match rest with
      | b :: rest2 =>
        if isDigitCh b then
          match rest2 with
          | c :: _ => if isJsWs c then some ([a, b], rest2) else none
          | [] => none
        else if isJsWs b then some ([a], rest) else none
      | [] => none
    else none
  | [] => none

def fourDigits : List Char → Option (List Char × List Char)
  | a :: b :: c :: d :: r =>
    if isDigitCh a && isDigitCh b && isDigitCh c && isDigitCh d then some ([a, b, c, d], r)
    else none
  | _ => none

/-- The anchored regex `^(\d{1,2})\s+([A-Za-z]{3})\s+(\d{4})$`. -/
def dmyFull (s : List Char) : Option (List Char × List Char × List Char) :=
  match digitsThenWs s with
  | none => none
  | some (ds, r1) =>
    let r2 := r1.dropWhile isJsWs
    match r2 with
    | a :: b :: c :: r3 =>
      if isAlphaCh a && isAlphaCh b && isAlphaCh c then
        let w2 := r3.takeWhile isJsWs
        if w2.isEmpty then none
        else
          match fourDigits (r3.drop w2.length) with
          | some (ys, []) => some (ds, [a, b, c], ys)
          | _ => none
      else none
    | _ => none

/-- The anchored regex `^(\d{1,2})\/(\d{1,2})\/(\d{4})$`. -/
def slashFull (s : List Char) : Option (List Char × List Char × List Char) :=
  match digitsThenSlash s with
  | none => none
  | some (ms, r1) =>
    match digitsThenSlash r1 with
    | none => none
    | some (ds, r2) =>
      match fourDigits r2 with
      | some (ys, []) => some (ms, ds, ys)
      | _ => none

def twoDigitsL : List Char → Option (List Char × List Char)
  | a :: b :: r => if isDigitCh a && isDigitCh b then some ([a, b], r) else none
  | _ => none

/-- The anchored regex `^(\d{4})-(\d{2})-(\d{2})$`. -/
def isoFull (s : List Char) : Option (List Char × List Char × List Char) :=
  match fourDigits s with
  | some (ys, '-' :: r1) =>
    match twoDigitsL r1 with
    | some (ms, '-' :: r2) =>
      match twoDigitsL r2 with
      | some (ds, []) => some (ys, ms, ds)
      | _ => none
    | _ => none
  | _ => none

def monthNames : List (List Char) :=
  [['j','a','n'], ['f','e','b'], ['m','a','r'], ['a','p','r'], ['m','a','y'], ['j','u','n'],
   ['j','u','l'], ['a','u','g'], ['s','e','p'], ['o','c','t'], ['n','o','v'], ['d','e','c']]

/-- `monthNames.findIndex(m => m.toLowerCase() === month.toLowerCase())`,
`none` for index `-1`. -/
def monthIndexOf (mon : List Char) : Option Nat :=
  monthNames.findIdx? (fun m => m == mon.map lowerCh)

/-- `parseDate`: the three anchored shapes in order, then the native
`new Date` fallback; `none` models a thrown error (invalid month name,
or a fallback `NaN` date). -/
def parseDate (dateStr : List Char) : Option Int :=
  match dmyFull dateStr with
  | some (d, mon, y) =>
    match monthIndexOf mon with
    | none => none
    | some mi =>
      match jsParseIntDec y, jsParseIntDec d with
      | some yi, some di => some (jsDateUTC yi (mi : Int) di)
      | _, _ => none
  | none =>
  match slashFull dateStr with
  | some (m, d, y) =>
    match jsParseIntDec y, jsParseIntDec m, jsParseIntDec d with
    | some yi, some mi, some di => some (jsDateUTC yi (mi - 1) di)
    | _, _, _ => none
  | none =>
  match isoFull dateStr with
  | some (y, m, d) =>
    match jsParseIntDec y, jsParseIntDec m, jsParseIntDec d with
    | some yi, some mi, some di => some (jsDateUTC yi (mi - 1) di)
    | _, _, _ => none
  | none => jsNewDate dateStr

/-! ### Amount and balance parsers -/

/-- `replace(/[₹,\s]/g, '')`. -/
def cleanMoney (s : List Char) : List Char :=
  s.filter (fun c => !(c == '₹' || c == ',' || isJsWs c))

/-- `parseAmount(amountStr, isDebit)`: strip currency/commas/whitespace,
record whether the cleaned string starts with a minus, parse as a
float, and force the sign negative (`Math.abs(amount) * -1`) when the
debit flag or the minus is present. -/
def parseAmount (amountStr : List Char) (isDebit : Bool) : Option JsNum :=
  let cleaned := cleanMoney amountStr
  let isNegative := cleaned.head? == some '-'
  match jsParseFloat cleaned with
  | none => none
  | some amount =>
    some (if isDebit || isNegative then JsNum.negate (JsNum.absVal amount) else amount)

/-- `parseBalance(balanceStr)`: strip currency/commas/whitespace and
parse as a float, with no sign logic. -/
def parseBalance (balanceStr : List Char) : Option JsNum :=
  jsParseFloat (cleanMoney balanceStr)

/-! ### The transaction record -/

structure ParsedTransaction where
  date : Int
  description : List Char
  amount : JsNum
  balance : JsNum
deriving DecidableEq

/-! ### Format 1 (labeled), multi-line mode -/

def litDateLabel : List Char := ['d','a','t','e',':']
def litDescLabel : List Char := ['d','e','s','c','r','i','p','t','i','o','n',':']
def litAmountLabel : List Char := ['a','m','o','u','n','t',':']
def litBalanceWord : List Char := ['b','a','l','a','n','c','e']
def litAfterWord : List Char := ['a','f','t','e','r']
def litTransactionWord : List Char := ['t','r','a','n','s','a','c','t','i','o','n']

/-- Backtracking tail of a `\s*(.+)` pattern applied to `rem`: the
greedy `\s*` prefers its maximal run, and when the remainder is
exhausted it backs off to the last `.`-matchable character of the
run. -/
def lastDotCapture : List Char → Option (List Char)
  | [] => none
  | c :: cs =>
    match lastDotCapture cs with
    | some cap => some cap
    | none => if isDotChar c then some ((c :: cs).takeWhile isDotChar) else none

def restCapture (rem : List Char) : Option (List Char) :=
  let rest := rem.dropWhile isJsWs
  if rest.isEmpty then lastDotCapture rem
  else some (rest.takeWhile isDotChar)

/-- The anchored regex `^label\s*(.+)/i`, returning the capture. -/
def matchLabelRest (label line : List Char) : Option (List Char) :=
  match litCI label line with
  | none => none
  | some rem => restCapture rem

def balAfterTransTail (r2 : List Char) : Option (List Char) :=
  match litCI litAfterWord r2 with
  | none => none
  | some r3 =>
    let w := r3.takeWhile isJsWs
    if w.isEmpty then none
    else
      match litCI litTransactionWord (r3.drop w.length) with
      | some (':' :: r4) => some r4
      | _ => none

def balAfterTail (r2 : List Char) : Option (List Char) :=
  match litCI litAfterWord r2 with
  | some (':' :: r3) => some r3
  | _ => none

/-- The anchored regex
`^Balance\s+(?:after\s+transaction|after):\s*(.+)/i`. -/
def matchBalanceLabel (line : List Char) : Option (List Char) :=
  match litCI litBalanceWord line with
  | none => none
  | some r1 =>
    let w := r1.takeWhile isJsWs
    if w.isEmpty then none
    else
      let r2 := r1.drop w.length
      match balAfterTransTail r2 with
      | some rem => restCapture rem
      | none =>
        match balAfterTail r2 with
        | some rem => restCapture rem
        | none => none

structure F1State where
  date : Option Int
  description : List Char
  amount : Option JsNum
  balance : Option JsNum
deriving DecidableEq

def f1Init : F1State := ⟨none, [], none, none⟩

/-- One iteration of the Format 1 line loop: the if/else-if chain over
the four label patterns; a failing field normalizer is a thrown
error. -/
def f1Step (st : F1State) (line : List Char) : Option F1State :=
  match matchLabelRest litDateLabel line with
  | some cap => (parseDate (jsTrim cap)).map (fun d => { st with date := some d })
  | none =>
    match matchLabelRest litDescLabel line with
    | some cap => some { st with description := jsTrim cap }
    | none =>
      match matchLabelRest litAmountLabel line with
      | some cap => (parseAmount (jsTrim cap) false).map (fun a => { st with amount := some a })
      | none =>
        match matchBalanceLabel line with
        | some cap => (parseBalance (jsTrim cap)).map (fun b => { st with balance := some b })
        | none => some st

/-- The final all-fields check of Format 1 (`!date || !description ||
amount === null || balance === null`). -/
def f1Finalize (st : F1State) : Option ParsedTransaction :=
  match st with
  | ⟨some d, desc, some a, some b⟩ => if desc.isEmpty then none else some ⟨d, desc, a, b⟩
  | _ => none

def parseFormat1 (lines : List (List Char)) : Option ParsedTransaction :=
  (lines.foldlM f1Step f1Init).bind f1Finalize

/-! ### Format 1, single-line mode -/

/-- The lazy middle of `lab1\s*(.+?)\s*lab2`: grow the capture one
`.`-matchable character at a time and stop at the first point where
`\s*lab2` completes. -/
def lazyTail (endLab : List Char) (acc : List Char) : List Char → Option (List Char)
  | [] => none
  | c :: cs =>
    if isDotChar c then
      match litCI endLab (cs.dropWhile isJsWs) with
      | some _ => some (acc ++ [c])
      | none => lazyTail endLab (acc ++ [c]) cs
    else none

/-- Greedy descent for the leading `\s*` of `lab1\s*(.+?)\s*lab2`: try
consuming `k` whitespace characters, largest first. -/
def tryWsDesc (endLab rem : List Char) : Nat → Option (List Char)
  | 0 => lazyTail endLab [] rem
  | k + 1 =>
    match lazyTail endLab [] (rem.drop (k + 1)) with
    | some cap => some cap
    | none => tryWsDesc endLab rem k

/-- The unanchored regex `lab1\s*(.+?)\s*lab2/i` (leftmost match),
returning the lazy capture. -/
def lazyBetween (startLab endLab : List Char) : List Char → Option (List Char)
  | [] => none
  | c :: cs =>
    match litCI startLab (c :: cs) with
    | some rem =>
      match tryWsDesc endLab rem (rem.takeWhile isJsWs).length with
      | some cap => some cap
      | none => lazyBetween startLab endLab cs
    | none => lazyBetween startLab endLab cs

/-- The character class `[₹\d,.-]`. -/
def isBalClassCh (c : Char) : Bool :=
  c == '₹' || isDigitCh c || c == ',' || c == '.' || c == '-'

/-- The `:\s*([₹\d,.-]+)\s*$` tail of the primary single-line balance
regex, applied after the backtracked `.*`. -/
def colonToEnd : List Char → Option (List Char)
  | ':' :: r =>
    let r2 := r.dropWhile isJsWs
    let cap := r2.takeWhile isBalClassCh
    if cap.isEmpty then none
    else if ((r2.drop cap.length).dropWhile isJsWs).isEmpty then some cap
    else none
  | _ => none

/-- Greedy descent of `.*` before the colon: try the split points from
the largest prefix of `.`-matchable characters downwards. -/
def tryColonDesc (rem : List Char) : Nat → Option (List Char)
  | 0 => colonToEnd rem
  | k + 1 =>
    match colonToEnd (rem.drop (k + 1)) with
    | some cap => some cap
    | none => tryColonDesc rem k

/-- The unanchored regex `/Balance.*:\s*([₹\d,.-]+)\s*$/i`. -/
def searchBalPrimary : List Char → Option (List Char)
  | [] => none
  | c :: cs =>
    match litCI litBalanceWord (c :: cs) with
    | some rem =>
      match tryColonDesc rem (rem.takeWhile isDotChar).length with
      | some cap => some cap
      | none => searchBalPrimary cs
    | none => searchBalPrimary cs

/-- The `\s+([₹\d,.-]+)\s*$` tail of the fallback single-line balance
regex. -/
def wsCapToEnd (r : List Char) : Option (List Char) :=
  let w := r.takeWhile isJsWs
  if w.isEmpty then none
  else
    let r2 := r.drop w.length
    let cap := r2.takeWhile isBalClassCh
    if cap.isEmpty then none
    else if ((r2.drop cap.length).dropWhile isJsWs).isEmpty then some cap
    else none

/-- Lazy ascent of `.*?` in the fallback balance regex: smallest prefix
first. -/
def lazyToWsCap : List Char → Option (List Char)
  | [] => none
  | c :: cs =>
    match wsCapToEnd (c :: cs) with
    | some cap => some cap
    | none => if isDotChar c then lazyToWsCap cs else none

/-- The unanchored regex `/Balance.*?\s+([₹\d,.-]+)\s*$/i` (the
missing-colon OCR fallback). -/
def searchBalFallback : List Char → Option (List Char)
  | [] => none
  | c :: cs =>
    match litCI litBalanceWord (c :: cs) with
    | some rem =>
      match lazyToWsCap rem with
      | some cap => some cap
      | none => searchBalFallback cs
    | none => searchBalFallback cs

def buildF1 (d de a b : List Char) : Option ParsedTransaction :=
  match parseDate (jsTrim d), parseAmount (jsTrim a) false, parseBalance (jsTrim b) with
  | some dt, some am, some bl => some ⟨dt, jsTrim de, am, bl⟩
  | _, _, _ => none

/-- `parseFormat1SingleLine`: label-to-label lazy captures, the primary
balance pattern, then the loose missing-colon fallback.  Note that the
trimmed description capture is not checked for emptiness here. -/
def parseFormat1SingleLine (text : List Char) : Option ParsedTransaction :=
  let dateM := lazyBetween litDateLabel litDescLabel text
  let descM := lazyBetween litDescLabel litAmountLabel text
  let amountM := lazyBetween litAmountLabel litBalanceWord text
  match dateM, descM, amountM, searchBalPrimary text with
  | some d, some de, some a, some b => buildF1 d de a b
  | _, _, _, _ =>
    match dateM, descM, amountM, searchBalFallback text with
    | some d, some de, some a, some b => buildF1 d de a b
    | _, _, _, _ => none

/-! ### Format 2 (inline/arrow) -/

def isDigitComma (c : Char) : Bool :=
  isDigitCh c || c == ','

/-- Match of `\d{1,2}\/\d{1,2}\/\d{4}` at the head, returning the
matched substring (no end anchor). -/
def slashDateAt (s : List Char) : Option (List Char) :=
  match digitsThenSlash s with
  | none => none
  | some (ms, r1) =>
    match digitsThenSlash r1 with
    | none => none
    | some (ds, r2) =>
      match fourDigits r2 with
      | some (ys, _) => some (ms ++ '/' :: (ds ++ '/' :: ys))
      | none => none

/-- The unanchored search `/(\d{1,2}\/\d{1,2}\/\d{4})/`. -/
def searchSlashDate : List Char → Option (List Char)
  | [] => none
  | c :: cs =>
    match slashDateAt (c :: cs) with
    | some cap => some cap
    | none => searchSlashDate cs

/-- Match of `\d{1,2}\s+[A-Za-z]{3}\s+\d{4}` at the head, returning the
matched substring. -/
def dmyAt (s : List Char) : Option (List Char) :=
  match digitsThenWs s with
  | none => none
  | some (ds, r1) =>
    let w1 := r1.takeWhile isJsWs
    match r1.drop w1.length with
    | a :: b :: c :: r3 =>
      if isAlphaCh a && isAlphaCh b && isAlphaCh c then
        let w2 := r3.takeWhile isJsWs
        if w2.isEmpty then none
        else
          match fourDigits (r3.drop w2.length) with
          | some (ys, _) => some (ds ++ w1 ++ a :: b :: c :: (w2 ++ ys))
          | none => none
      else none
    | _ => none

/-- The unanchored search `/(\d{1,2}\s+[A-Za-z]{3}\s+\d{4})/`. -/
def searchDmy : List Char → Option (List Char)
  | [] => none
  | c :: cs =>
    match dmyAt (c :: cs) with
    | some cap => some cap
    | none => searchDmy cs

/-- The unanchored search `/Available\s+Balance/i`. -/
def searchAvailBal : List Char → Bool
  | [] => false
  | c :: cs =>
    (match litCI ['a','v','a','i','l','a','b','l','e'] (c :: cs) with
     | some r1 =>
       let w := r1.takeWhile isJsWs
       !w.isEmpty && (litCI litBalanceWord (r1.drop w.length)).isSome
     | none => false) ||
    searchAvailBal cs

/-- The `([\d,]+\.\d{2})` group: a maximal digit/comma run, a point and
exactly two digits. -/
def moneyCapAt (r : List Char) : Option (List Char) :=
  let run := r.takeWhile isDigitComma
  if run.isEmpty then none
  else
    match r.drop run.length with
    | '.' :: d1 :: d2 :: _ =>
      if isDigitCh d1 && isDigitCh d2 then some (run ++ '.' :: [d1, d2]) else none
    | _ => none

def isArrowGlyph (c : Char) : Bool :=
  c == '→' || c == '—' || c == '–'

/-- Match of `(?:→|—|–)\s*[₹]?([\d,]+\.\d{2})` at the head, returning
the money capture. -/
def glyphAmountAt (s : List Char) : Option (List Char) :=
  match s with
  | c :: cs =>
    if isArrowGlyph c then
      let r := cs.dropWhile isJsWs
      match r with
      | '₹' :: r2 => moneyCapAt r2
      | _ => moneyCapAt r
    else none
  | [] => none

/-- The unanchored search `/(?:→|—|–)\s*[₹]?([\d,]+\.\d{2})/`. -/
def searchGlyphAmount : List Char → Option (List Char)
  | [] => none
  | c :: cs =>
    match glyphAmountAt (c :: cs) with
    | some cap => some cap
    | none => searchGlyphAmount cs

/-- The `[₹]?([\d,]+\.?\d*)` group at the head: optional rupee sign,
then a digit/comma run, an optional point and a digit run. -/
def looseNumCapAt (s : List Char) : Option (List Char) :=
  let r := match s with
           | '₹' :: r2 => if (r2.takeWhile isDigitComma).isEmpty then s else r2
           | _ => s
  let run := r.takeWhile isDigitComma
  if run.isEmpty then none
  else
    match r.drop run.length with
    | '.' :: r2 => some (run ++ '.' :: r2.takeWhile isDigitCh)
    | _ => some run

/-- The unanchored search `/[₹]?([\d,]+\.?\d*)/`. -/
def searchLooseNum : List Char → Option (List Char)
  | [] => none
  | c :: cs =>
    match looseNumCapAt (c :: cs) with
    | some cap => some cap
    | none => searchLooseNum cs

def litDebitedWord : List Char := ['d','e','b','i','t','e','d']
def litDrWord : List Char := ['d','r']
def litDebitWord : List Char := ['d','e','b','i','t']

structure F2State where
  description : List Char
  date : Option Int
  amount : Option JsNum
  balance : Option JsNum
deriving DecidableEq

def f2Init : F2State := ⟨[], none, none, none⟩

/-- One iteration of the Format 2 line loop: classify the line as a
description line, a date+amount line, or a balance line. -/
def f2Step (st : F2State) (line : List Char) : Option F2State :=
  let hasGlyph := line.any isArrowGlyph
  let hasSlash := (searchSlashDate line).isSome
  let hasDmy := (searchDmy line).isSome
  if !hasGlyph && !hasSlash && !hasDmy && !searchAvailBal line then
    some (if st.description.isEmpty then { st with description := jsTrim line } else st)
  else if hasGlyph && (hasSlash || hasDmy) then
    let st1 :=
      match searchSlashDate line with
      | some cap => (parseDate cap).map (fun d => { st with date := some d })
      | none =>
        match searchDmy line with
        | some cap => (parseDate cap).map (fun d => { st with date := some d })
        | none => some st
    match st1 with
    | none => none
    | some st2 =>
      match searchGlyphAmount line with
      | some cap =>
        let isDebit := containsCI line litDebitedWord || containsCI line litDrWord
        (parseAmount cap isDebit).map (fun a => { st2 with amount := some a })
      | none => some st2
  else if searchAvailBal line then
    match searchLooseNum line with
    | some cap => (parseBalance cap).map (fun b => { st with balance := some b })
    | none => some st
  else some st

def f2Finalize (st : F2State) : Option ParsedTransaction :=
  match st with
  | ⟨desc, some d, some a, some b⟩ => if desc.isEmpty then none else some ⟨d, desc, a, b⟩
  | _ => none

def parseFormat2 (lines : List (List Char)) : Option ParsedTransaction :=
  (lines.foldlM f2Step f2Init).bind f2Finalize

/-! ### Format 3 (compact) -/

/-- Match of `\d{4}-\d{2}-\d{2}` at the head (no anchors), returning the
matched substring. -/
def isoAt (s : List Char) : Option (List Char) :=
  match fourDigits s with
  | some (ys, '-' :: r1) =>
    match twoDigitsL r1 with
    | some (ms, '-' :: r2) =>
      match twoDigitsL r2 with
      | some (ds, _) => some (ys ++ '-' :: (ms ++ '-' :: ds))
      | none => none
    | _ => none
  | _ => none

/-- The search `/(\d{4}-\d{2}-\d{2})/` with `match.index`. -/
def searchIsoIdx : Nat → List Char → Option (Nat × List Char)
  | _, [] => none
  | i, c :: cs =>
    match isoAt (c :: cs) with
    | some cap => some (i, cap)
    | none => searchIsoIdx (i + 1) cs

/-- The search `/[₹]([\d,]+\.\d{2})\s*(?:Dr|Debit|debited)?/i` with
`match.index`; the optional trailing marker never affects the capture
or the index. -/
def searchAmtIdx (i : Nat) : List Char → Option (Nat × List Char)
  | [] => none
  | c :: cs =>
    if c == '₹' then
      match moneyCapAt cs with
      | some cap => some (i, cap)
      | none => searchAmtIdx (i + 1) cs
    else searchAmtIdx (i + 1) cs

/-- The `\s+[₹]?([\d,]+\.?\d*)` tail of the compact balance regex. -/
def balNumTail (r : List Char) : Option (List Char) :=
  let w := r.takeWhile isJsWs
  if w.isEmpty then none
  else
    match r.drop w.length with
    | '₹' :: r2 =>
      let run := r2.takeWhile isDigitComma
      if run.isEmpty then none
      else
        match r2.drop run.length with
        | '.' :: r3 => some (run ++ '.' :: r3.takeWhile isDigitCh)
        | _ => some run
    | r2 =>
      let run := r2.takeWhile isDigitComma
      if run.isEmpty then none
      else
        match r2.drop run.length with
        | '.' :: r3 => some (run ++ '.' :: r3.takeWhile isDigitCh)
        | _ => some run

/-- The unanchored search
`/(?:Bal|Balance)\s+[₹]?([\d,]+\.?\d*)/i`, trying the `Bal` alternative
before `Balance` at each position. -/
def searchBalCompact : List Char → Option (List Char)
  | [] => none
  | c :: cs =>
    (match litCI ['b','a','l'] (c :: cs) with
     | some r1 =>
       match balNumTail r1 with
       | some cap => some cap
       | none =>
         match litCI litBalanceWord (c :: cs) with
         | some r2 => balNumTail r2
         | none => none
     | none => none).orElse (fun _ => searchBalCompact cs)

/-- `substring(a, b)` of JavaScript: swaps its endpoints when given in
reverse order. -/
def jsSubstring (s : List Char) (a b : Nat) : List Char :=
  (s.drop (min a b)).take (max a b - min a b)

/-- `replace(/^txn\w*\s*/i, '')`. -/
def stripTxn (s : List Char) : List Char :=
  match litCI ['t','x','n'] s with
  | some r => (r.dropWhile isWordCh).dropWhile isJsWs
  | none => s

/-- `replace(/\s+/g, ' ')`. -/
def collapseWsAux : Bool → List Char → List Char
  | _, [] => []
  | prevWs, c :: cs =>
    if isJsWs c then
      if prevWs then collapseWsAux true cs else ' ' :: collapseWsAux true cs
    else c :: collapseWsAux false cs

def collapseWs (l : List Char) : List Char :=
  collapseWsAux false l

/-- The `/Dr|Debit|debited/i.test(text)` check: a case-insensitive
substring (not token) test. -/
def hasDebitMarkerText (t : List Char) : Bool :=
  containsCI t litDrWord || containsCI t litDebitWord || containsCI t litDebitedWord

/-- `parseFormat3`: ISO date, rupee-prefixed amount with global debit
test, `Bal`/`Balance` number, and the between-date-and-amount
description with `txn` prefix stripped and whitespace collapsed. -/
def parseFormat3 (text : List Char) : Option ParsedTransaction :=
  match searchIsoIdx 0 text with
  | none => none
  | some (dIdx, dCap) =>
    match parseDate dCap with
    | none => none
    | some dt =>
      match searchAmtIdx 0 text with
      | none => none
      | some (aIdx, aCap) =>
        match parseAmount aCap (hasDebitMarkerText text) with
        | none => none
        | some amt =>
          match searchBalCompact text with
          | none => none
          | some bCap =>
            match parseBalance bCap with
            | none => none
            | some bal =>
              let desc := collapseWs (jsTrim (stripTxn (jsTrim
                (jsSubstring text (dIdx + dCap.length) aIdx))))
              if desc.isEmpty then none else some ⟨dt, desc, amt, bal⟩

/-! ### Dispatch and batch parsing -/

/-- The branch of `parseTransaction` taken when the normalized text
contains `Date:`: the single-line labeled parser with a fall back to
the multi-line labeled parser, or the multi-line parser directly. -/
def labeledDispatch (n : List Char) : Option ParsedTransaction :=
  let lines := mkLines n
  if lines.length == 1 || !n.contains '\n' then
    match parseFormat1SingleLine n with
    | some tx => some tx
    | none => parseFormat1 lines
  else parseFormat1 lines

/-- The Format 2 dispatch test: an arrow/dash glyph, a slash date or a
`DD Mon YYYY` date anywhere in the normalized text. -/
def format2Cond (n : List Char) : Bool :=
  n.any isArrowGlyph || (searchSlashDate n).isSome || (searchDmy n).isSome

/-- The Format 3 dispatch test: an ISO date and the substring `txn`. -/
def format3Cond (n : List Char) : Bool :=
  (searchIsoIdx 0 n).isSome && containsCI n ['t','x','n']

/-- `parseTransaction`. -/
def parseTransaction (text : List Char) : Option ParsedTransaction :=
  let n := normalize text
  if containsCI n litDateLabel then labeledDispatch n
  else if format2Cond n then parseFormat2 (mkLines n)
  else if format3Cond n then parseFormat3 n
  else parseFormat3 n

def lastNlIdxAux : List Char → Nat → Nat → Nat
  | [], _, best => best
  | c :: cs, i, best => lastNlIdxAux cs (i + 1) (if c == '\n' then i else best)

/-- The `split(/\n\s*\n/)` of the batch parser: at each `\n` whose
following whitespace run contains another `\n`, the (greedily
backtracked) match ends at the last `\n` of that run.  Structured on a
fuel argument that the initial call makes large enough. -/
def splitBlocksAux : Nat → List Char → List Char → List (List Char)
  | 0, cur, rest => [cur ++ rest]
  | _ + 1, cur, [] => [cur]
  | fuel + 1, cur, '\n' :: rest =>
    let run := rest.takeWhile isJsWs
    if run.contains '\n' then
      cur :: splitBlocksAux fuel [] (rest.drop (lastNlIdxAux run 0 0 + 1))
    else splitBlocksAux fuel (cur ++ ['\n']) rest
  | fuel + 1, cur, c :: rest => splitBlocksAux fuel (cur ++ [c]) rest

def splitBlocks (t : List Char) : List (List Char) :=
  splitBlocksAux (t.length + 1) [] t

def nonBlankBlocks (t : List Char) : List (List Char) :=
  (splitBlocks t).filter (fun b => !(jsTrim b).isEmpty)

/-- The loop body of the batch parser: push a block's transaction on
success, skip the block (with only a logged warning) on failure. -/
def pushTx (acc : List ParsedTransaction) (b : List Char) : List ParsedTransaction :=
  match parseTransaction b with
  | some tx => acc ++ [tx]
  | none => acc

/-- `parseMultipleTransactions`: parse each non-blank block, collecting
successes; when none succeeds, try the whole text as one transaction
before failing. -/
def parseMultipleTransactions (t : List Char) : Option (List ParsedTransaction) :=
  let txs := (nonBlankBlocks t).foldl pushTx []
  if txs.isEmpty then
    match parseTransaction t with
    | some tx => some [tx]
    | none => none
  else some txs

/-! ### Statement-level auxiliary definitions

These definitions are not part of the embedded program; they are the
vocabulary used to state the claims: the calendar meaning of a UTC
midnight timestamp (`utcMidnightMs` above), the claim's notion of a
debit marker *token*, and the "last line matching a label" selector of
the multi-line labeled format. -/

/-- Split on whitespace characters. -/
def splitWsRuns : List Char → List (List Char)
  | [] => [[]]
  | c :: cs =>
    if isJsWs c then [] :: splitWsRuns cs
    else
      match splitWsRuns cs with
      | [] => [[c]]
      | h :: t => (c :: h) :: t

/-- The whitespace-delimited tokens of a text. -/
def wsTokens (t : List Char) : List (List Char) :=
  (splitWsRuns t).filter (fun l => !l.isEmpty)

/-- The claim's wording for the Compact format sign rule: a debit
marker token `Dr`, `Debit` or `debited` (case-insensitive) present
anywhere in the text, as a standalone whitespace-delimited token. -/
def specDebitTokenPresent (t : List Char) : Bool :=
  (wsTokens t).any (fun tok =>
    tok.map lowerCh == litDrWord || tok.map lowerCh == litDebitWord ||
    tok.map lowerCh == litDebitedWord)

/-- The value produced by the last element of `ls` on which `f` fires. -/
def lastSomeAux (f : α → Option β) (acc : Option β) : List α → Option β
  | [] => acc
  | x :: xs =>
    lastSomeAux f (match f x with | some c => some c | none => acc) xs

def lastSome (f : α → Option β) (ls : List α) : Option β :=
  lastSomeAux f none ls

/-- The date capture of a line, as selected by the Format 1 else-if
chain. -/
def lineDateCap (l : List Char) : Option (List Char) :=
  matchLabelRest litDateLabel l

/-- The description capture of a line (a line is a description line
only when the date pattern did not fire first). -/
def lineDescCap (l : List Char) : Option (List Char) :=
  match matchLabelRest litDateLabel l with
  | some _ => none
  | none => matchLabelRest litDescLabel l

/-- The amount capture of a line in the else-if chain. -/
def lineAmountCap (l : List Char) : Option (List Char) :=
  match matchLabelRest litDateLabel l with
  | some _ => none
  | none =>
    match matchLabelRest litDescLabel l with
    | some _ => none
    | none => matchLabelRest litAmountLabel l

/-- The balance capture of a line in the else-if chain. -/
def lineBalanceCap (l : List Char) : Option (List Char) :=
  match matchLabelRest litDateLabel l with
  | some _ => none
  | none =>
    match matchLabelRest litDescLabel l with
    | some _ => none
    | none =>
      match matchLabelRest litAmountLabel l with
      | some _ => none
      | none => matchBalanceLabel l

/-! ### Concrete inputs used by the claims -/

/-- Scenario 1 of the specification: the multi-line labeled format. -/
def scenario1 : List Char :=
  "Date: 11 Dec 2025\nDescription: STARBUCKS COFFEE MUMBAI\nAmount: -420.00\nBalance after transaction: 18,420.50".toList

/-- Scenario 3 of the specification: the inline/arrow format. -/
def scenario3 : List Char :=
  "Uber Ride * Airport Drop\n12/11/2025 → ₹1,250.00 debited\nAvailable Balance → ₹17,170.50".toList

/-- Scenario 1 collapsed to one line with an empty `Description:`
field: the single-line labeled extractor captures a lone space between
the two labels and trims it to the empty string. -/
def inputEmptyDesc : List Char :=
  "Date: 11 Dec 2025 Description: Amount: -420.00 Balance after transaction: 18,420.50".toList

/-- A compact-format line whose description `Laundromat` contains the
letter pair `dr` but no debit marker token. -/
def inputLaundromat : List Char :=
  "txn9 2025-12-10 Laundromat ₹100.00 Bal 500.00".toList

/-- A single labeled line with all four labels present but out of
order, so the label-to-label single-line captures cannot match. -/
def inputOutOfOrder : List Char :=
  "Description: X Date: 11 Dec 2025 Amount: 5.00 Balance after: 10.00".toList

/-- A labeled input whose date string only parses through the native
`new Date` fallback and carries a 05:00 UTC time-of-day. -/
def inputFallbackTime : List Char :=
  "Date: 2025-12-10T05:00:00Z\nDescription: X\nAmount: 5.00\nBalance after: 10.00".toList

/-- A batch of two blank-line-separated blocks: scenario 1 and a
garbage block. -/
def batchInput : List Char :=
  scenario1 ++ ('\n' :: '\n' :: "this is not a transaction at all".toList)

/-- The transaction extracted from scenario 1. -/
def starbucksTx : ParsedTransaction :=
  ⟨utcMidnightMs 2025 12 11, "STARBUCKS COFFEE MUMBAI".toList, ⟨-42000, 2⟩, ⟨1842050, 2⟩⟩

/-- The transaction extracted from scenario 3. -/
def uberTx : ParsedTransaction :=
  ⟨utcMidnightMs 2025 12 11, "Uber Ride * Airport Drop".toList, ⟨-125000, 2⟩, ⟨1717050, 2⟩⟩

/-- A labeled input that also contains an arrow glyph in its
description. -/
def inputLabeledArrow : List Char :=
  "Date: 11 Dec 2025\nDescription: A → B\nAmount: 5.00\nBalance after: 10.00".toList

/-- A labeled line sequence in which the `Date:` label occurs twice. -/
def dupDateLines : List (List Char) :=
  ["Date: 11 Dec 2025".toList, "Date: 2025-12-10".toList, "Description: X".toList,
   "Amount: 5.00".toList, "Balance after: 10.00".toList]

/-- The transaction extracted from `dupDateLines`: the second `Date:`
line wins. -/
def dupTx : ParsedTransaction :=
  ⟨utcMidnightMs 2025 12 10, ['X'], ⟨500, 2⟩, ⟨1000, 2⟩⟩

/-! ### Character-class lemmas -/

lemma isJsWs_eq_false_of_digit {c : Char} (h : isDigitCh c = true) : isJsWs c = false := by
  simp only [isDigitCh, Bool.and_eq_true, decide_eq_true_eq] at h
  simp only [isJsWs, Bool.or_eq_false_iff, beq_eq_false_iff_ne, ne_eq,
    Bool.and_eq_false_iff, decide_eq_false_iff_not, not_le]
  omega

lemma ne_minus_of_digit {c : Char} (h : isDigitCh c = true) : (c == '-') = false := by
  rw [Bool.eq_false_iff]
  intro hc
  rw [beq_iff_eq] at hc
  subst hc
  exact absurd h (by decide)

lemma ne_plus_of_digit {c : Char} (h : isDigitCh c = true) : (c == '+') = false := by
  rw [Bool.eq_false_iff]
  intro hc
  rw [beq_iff_eq] at hc
  subst hc
  exact absurd h (by decide)

lemma takeWhile_eq_self_of_all {p : Char → Bool} {l : List Char}
    (h : ∀ c ∈ l, p c = true) : l.takeWhile p = l :=
  List.takeWhile_eq_self_iff.mpr h

lemma dropWhile_eq_self_of_head {p : Char → Bool} {l : List Char}
    (h : ∀ c ∈ l, p c = false) : l.dropWhile p = l := by
  cases l with
  | nil => rfl
  | cons c cs =>
    rw [List.dropWhile_cons, h c (List.mem_cons_self c cs)]
    simp

/-! ### Number parser lemmas -/

lemma parsePosMantissa_num_nonneg {t : List Char} {p : JsNum × List Char}
    (h : parsePosMantissa t = some p) : 0 ≤ p.1.num := by
  simp only [parsePosMantissa] at h
  split at h
  · split at h
    · exact absurd h (by simp)
    · rw [Option.some_inj] at h
      subst h
      exact Int.natCast_nonneg _
  · split at h
    · exact absurd h (by simp)
    · rw [Option.some_inj] at h
      subst h
      exact Int.natCast_nonneg _

lemma expDigits_num_nonneg {m : JsNum} {neg : Bool} {r : List Char} (h : 0 ≤ m.num) :
    0 ≤ (expDigits m neg r).num := by
  simp only [expDigits]
  split
  · exact h
  · split
    · exact h
    · exact mul_nonneg h (by positivity)

lemma applyExp_num_nonneg {m : JsNum} {r : List Char} (h : 0 ≤ m.num) :
    0 ≤ (applyExp m r).num := by
  unfold applyExp
  split <;> first | exact expDigits_num_nonneg h | exact h

lemma jsParseFloatCore_num_nonneg {l : List Char} {v : JsNum}
    (h : jsParseFloatCore l = some v) (hh : l.head? ≠ some '-') : 0 ≤ v.num := by
  cases l with
  | nil => exact absurd h (by simp [jsParseFloatCore])
  | cons c r =>
    simp only [jsParseFloatCore] at h
    split at h
    · rename_i hc
      rw [beq_iff_eq] at hc
      subst hc
      exact absurd rfl hh
    · split at h <;>
      · rw [Option.map_eq_some'] at h
        obtain ⟨p, hp, hv⟩ := h
        subst hv
        exact applyExp_num_nonneg (parsePosMantissa_num_nonneg hp)

lemma jsParseFloatCore_num_nonpos {r : List Char} {v : JsNum}
    (h : jsParseFloatCore ('-' :: r) = some v) : v.num ≤ 0 := by
  simp only [jsParseFloatCore] at h
  rw [if_pos (by decide), Option.map_eq_some'] at h
  obtain ⟨p, hp, hv⟩ := h
  subst hv
  simp only [JsNum.negate, neg_nonpos]
  exact applyExp_num_nonneg (parsePosMantissa_num_nonneg hp)

lemma cleanMoney_no_ws {s : List Char} : ∀ c ∈ cleanMoney s, isJsWs c = false := by
  intro c hc
  rw [cleanMoney, List.mem_filter] at hc
  have h2 := hc.2
  simp only [Bool.not_eq_eq_eq_not, Bool.not_true, Bool.or_eq_false_iff] at h2
  exact h2.2

lemma cleanMoney_dropWhile {s : List Char} :
    (cleanMoney s).dropWhile isJsWs = cleanMoney s :=
  dropWhile_eq_self_of_head cleanMoney_no_ws

lemma JsNum.val_lt_zero_iff (x : JsNum) : x.val < 0 ↔ x.num < 0 := by
  have hp : (0 : ℚ) < (10 : ℚ) ^ x.exp10 := by positivity
  rw [JsNum.val]
  constructor
  · intro h
    rcases div_neg_iff.mp h with ⟨_, hb⟩ | ⟨ha, _⟩
    · exact absurd hb (not_lt.mpr (le_of_lt hp))
    · exact_mod_cast ha
  · intro h
    exact div_neg_iff.mpr (Or.inr ⟨by exact_mod_cast h, hp⟩)

lemma JsNum.val_nonneg_iff (x : JsNum) : 0 ≤ x.val ↔ 0 ≤ x.num := by
  rw [← not_lt, ← not_lt, JsNum.val_lt_zero_iff]

lemma JsNum.val_eq_zero_iff (x : JsNum) : x.val = 0 ↔ x.num = 0 := by
  have hp : ((10 : ℚ) ^ x.exp10) ≠ 0 := by positivity
  rw [JsNum.val, div_eq_zero_iff]
  simp [hp]

lemma JsNum.val_nonpos_iff (x : JsNum) : x.val ≤ 0 ↔ x.num ≤ 0 := by
  constructor
  · intro h
    rcases lt_or_eq_of_le h with hlt | heq
    · exact le_of_lt ((JsNum.val_lt_zero_iff x).mp hlt)
    · exact le_of_eq ((JsNum.val_eq_zero_iff x).mp heq)
  · intro h
    rcases lt_or_eq_of_le h with hlt | heq
    · exact le_of_lt ((JsNum.val_lt_zero_iff x).mpr hlt)
    · exact le_of_eq ((JsNum.val_eq_zero_iff x).mpr heq)

lemma JsNum.val_negate (x : JsNum) : (JsNum.negate x).val = -x.val := by
  simp [JsNum.val, JsNum.negate, neg_div]

lemma JsNum.absVal_of_nonneg {x : JsNum} (h : 0 ≤ x.num) : JsNum.absVal x = x := by
  show (⟨|x.num|, x.exp10⟩ : JsNum) = x
  rw [abs_of_nonneg h]

/-- The sign characterization of `parseAmount` in the claim's phrasing:
whenever the cleaned numeral parses to the number `v`, the result is
`-abs(v)` when the debit flag is set or the parsed value is negative,
and `+abs(v)` otherwise. -/
lemma parseAmount_eq {s : List Char} (flag : Bool) {v : JsNum}
    (h : jsParseFloat (cleanMoney s) = some v) :
    parseAmount s flag =
      some (if flag = true ∨ v.val < 0 then JsNum.negate (JsNum.absVal v)
            else JsNum.absVal v) := by
  simp only [parseAmount, h]
  rw [jsParseFloat, cleanMoney_dropWhile] at h
  rcases hneg : (cleanMoney s).head? == some '-' with _ | _
  · have hne : (cleanMoney s).head? ≠ some '-' := by
      intro hx
      rw [hx] at hneg
      simp at hneg
    have hv : 0 ≤ v.num := jsParseFloatCore_num_nonneg h hne
    have habs : JsNum.absVal v = v := JsNum.absVal_of_nonneg hv
    have hnotlt : ¬ v.val < 0 := by
      rw [JsNum.val_lt_zero_iff]
      exact not_lt.mpr hv
    congr 1
    cases flag with
    | true => simp [habs]
    | false => simp [hnotlt, habs]
  · have hhead : (cleanMoney s).head? = some '-' := by
      rwa [beq_iff_eq] at hneg
    obtain ⟨rest, hrest⟩ : ∃ rest, cleanMoney s = '-' :: rest := by
      cases hcm : cleanMoney s with
      | nil => rw [hcm] at hhead; exact absurd hhead (by simp)
      | cons a t =>
        rw [hcm] at hhead
        simp only [List.head?_cons, Option.some_inj] at hhead
        exact ⟨t, by rw [hhead]⟩
    rw [hrest] at h
    have hv : v.num ≤ 0 := jsParseFloatCore_num_nonpos h
    congr 1
    rcases lt_or_eq_of_le hv with hlt | heq
    · have hvl : v.val < 0 := (JsNum.val_lt_zero_iff v).mpr hlt
      simp [hvl]
    · have h0 : v.num = 0 := heq
      have hz : JsNum.negate (JsNum.absVal v) = JsNum.absVal v := by
        simp [JsNum.negate, JsNum.absVal, h0]
      simp [hz, ite_self]

/-! ### Slash-date lemmas -/

lemma jsParseIntDec_digits {l : List Char} (hne : l ≠ [])
    (hall : ∀ c ∈ l, isDigitCh c = true) :
    jsParseIntDec l = some (digitsToNat l : Int) := by
  cases l with
  | nil => exact absurd rfl hne
  | cons c cs =>
    have hd := hall c (List.mem_cons_self c cs)
    rw [jsParseIntDec, List.dropWhile_cons, isJsWs_eq_false_of_digit hd]
    simp only [Bool.false_eq_true, if_false, jsParseIntDecCore,
      ne_minus_of_digit hd, ne_plus_of_digit hd,
      takeWhile_eq_self_of_all hall]
    simp

lemma exists_len12 {l : List Char} (h : l.length = 1 ∨ l.length = 2) :
    (∃ a, l = [a]) ∨ ∃ a b, l = [a, b] := by
  match l, h with
  | [a], _ => exact Or.inl ⟨a, rfl⟩
  | [a, b], _ => exact Or.inr ⟨a, b, rfl⟩

lemma exists_len4 {l : List Char} (h : l.length = 4) :
    ∃ a b c d, l = [a, b, c, d] := by
  match l, h with
  | [a, b, c, d], _ => exact ⟨a, b, c, d, rfl⟩

lemma isDigitCh_slash : isDigitCh '/' = false := by decide

lemma isJsWs_slash : isJsWs '/' = false := by decide

lemma digitsThenSlash_pref {ms : List Char} (rest : List Char)
    (hm : ms.length = 1 ∨ ms.length = 2) (hall : ∀ c ∈ ms, isDigitCh c = true) :
    digitsThenSlash (ms ++ '/' :: rest) = some (ms, rest) := by
  rcases exists_len12 hm with ⟨a, rfl⟩ | ⟨a, b, rfl⟩
  · have ha := hall a (by simp)
    simp [digitsThenSlash, ha, isDigitCh_slash]
  · have ha := hall a (by simp)
    have hb := hall b (by simp)
    simp [digitsThenSlash, ha, hb]

lemma digitsThenWs_pref_none {ms : List Char} (rest : List Char)
    (hm : ms.length = 1 ∨ ms.length = 2) (hall : ∀ c ∈ ms, isDigitCh c = true) :
    digitsThenWs (ms ++ '/' :: rest) = none := by
  rcases exists_len12 hm with ⟨a, rfl⟩ | ⟨a, b, rfl⟩
  · have ha := hall a (by simp)
    simp [digitsThenWs, ha, isDigitCh_slash, isJsWs_slash]
  · have ha := hall a (by simp)
    have hb := hall b (by simp)
    simp [digitsThenWs, ha, hb, isJsWs_slash]

lemma fourDigits_of_len4 {ys : List Char} (hy : ys.length = 4)
    (hall : ∀ c ∈ ys, isDigitCh c = true) :
    fourDigits ys = some (ys, []) := by
  obtain ⟨a, b, c, d, rfl⟩ := exists_len4 hy
  have ha := hall a (by simp)
  have hb := hall b (by simp)
  have hc := hall c (by simp)
  have hd := hall d (by simp)
  simp [fourDigits, ha, hb, hc, hd]

lemma slashFull_pref {ms ds ys : List Char}
    (hm : ms.length = 1 ∨ ms.length = 2) (hmd : ∀ c ∈ ms, isDigitCh c = true)
    (hd : ds.length = 1 ∨ ds.length = 2) (hdd : ∀ c ∈ ds, isDigitCh c = true)
    (hy : ys.length = 4) (hyd : ∀ c ∈ ys, isDigitCh c = true) :
    slashFull (ms ++ '/' :: (ds ++ '/' :: ys)) = some (ms, ds, ys) := by
  simp only [slashFull, digitsThenSlash_pref _ hm hmd, digitsThenSlash_pref _ hd hdd,
    fourDigits_of_len4 hy hyd]

lemma dmyFull_slash_none {ms : List Char} (rest : List Char)
    (hm : ms.length = 1 ∨ ms.length = 2) (hall : ∀ c ∈ ms, isDigitCh c = true) :
    dmyFull (ms ++ '/' :: rest) = none := by
  rw [dmyFull, digitsThenWs_pref_none _ hm hall]

/-- A string of the shape `D[D]/D[D]/YYYY` is parsed by `parseDate` as
month/day/year, handed to the `Date.UTC` constructor. -/
lemma parseDate_slash {ms ds ys : List Char}
    (hm : ms.length = 1 ∨ ms.length = 2) (hmd : ∀ c ∈ ms, isDigitCh c = true)
    (hd : ds.length = 1 ∨ ds.length = 2) (hdd : ∀ c ∈ ds, isDigitCh c = true)
    (hy : ys.length = 4) (hyd : ∀ c ∈ ys, isDigitCh c = true) :
    parseDate (ms ++ '/' :: (ds ++ '/' :: ys)) =
      some (jsDateUTC (digitsToNat ys) ((digitsToNat ms : Int) - 1) (digitsToNat ds)) := by
  have hmne : ms ≠ [] := by
    rcases exists_len12 hm with ⟨a, rfl⟩ | ⟨a, b, rfl⟩ <;> simp
  have hdne : ds ≠ [] := by
    rcases exists_len12 hd with ⟨a, rfl⟩ | ⟨a, b, rfl⟩ <;> simp
  have hyne : ys ≠ [] := by
    obtain ⟨a, b, c, d, rfl⟩ := exists_len4 hy
    simp
  simp only [parseDate, dmyFull_slash_none _ hm hmd, slashFull_pref hm hmd hd hdd hy hyd,
    jsParseIntDec_digits hyne hyd, jsParseIntDec_digits hmne hmd,
    jsParseIntDec_digits hdne hdd]

/-! ### Time-of-day lemmas -/

lemma jsDateUTC_mod (y m d : Int) : jsDateUTC y m d % 86400000 = 0 := by
  simp only [jsDateUTC]
  exact Int.mul_emod_right _ _

/-- Dates built from the three explicit shapes go through `Date.UTC`
and therefore sit at UTC midnight. -/
lemma parseDate_shapes_midnight {s : List Char} {t : Int}
    (h : parseDate s = some t)
    (hs : (dmyFull s).isSome ∨ (slashFull s).isSome ∨ (isoFull s).isSome) :
    t % 86400000 = 0 := by
  rw [parseDate] at h
  split at h
  · split at h
    · simp at h
    · split at h
      · rw [Option.some_inj] at h
        subst h
        exact jsDateUTC_mod _ _ _
      · simp at h
  · rename_i hdmy
    split at h
    · split at h
      · rw [Option.some_inj] at h
        subst h
        exact jsDateUTC_mod _ _ _
      · simp at h
    · rename_i hslash
      split at h
      · split at h
        · rw [Option.some_inj] at h
          subst h
          exact jsDateUTC_mod _ _ _
        · simp at h
      · rename_i hiso
        rcases hs with hx | hx | hx <;> simp [hdmy, hslash, hiso] at hx

/-! ### Non-empty description lemmas -/

lemma f1Finalize_desc {st : F1State} {tx : ParsedTransaction}
    (h : f1Finalize st = some tx) : tx.description ≠ [] := by
  obtain ⟨od, desc, oa, ob⟩ := st
  cases od with
  | none => exact Option.noConfusion h
  | some d =>
  cases oa with
  | none => exact Option.noConfusion h
  | some a =>
  cases ob with
  | none => exact Option.noConfusion h
  | some b =>
  simp only [f1Finalize] at h
  split at h
  · exact Option.noConfusion h
  · rename_i hne
    rw [Option.some_inj] at h
    subst h
    simpa using hne

lemma parseFormat1_desc {lines : List (List Char)} {tx : ParsedTransaction}
    (h : parseFormat1 lines = some tx) : tx.description ≠ [] := by
  rw [parseFormat1, Option.bind_eq_some] at h
  obtain ⟨st, _, h2⟩ := h
  exact f1Finalize_desc h2

lemma f2Finalize_desc {st : F2State} {tx : ParsedTransaction}
    (h : f2Finalize st = some tx) : tx.description ≠ [] := by
  obtain ⟨desc, od, oa, ob⟩ := st
  cases od with
  | none => exact Option.noConfusion h
  | some d =>
  cases oa with
  | none => exact Option.noConfusion h
  | some a =>
  cases ob with
  | none => exact Option.noConfusion h
  | some b =>
  simp only [f2Finalize] at h
  split at h
  · exact Option.noConfusion h
  · rename_i hne
    rw [Option.some_inj] at h
    subst h
    simpa using hne

lemma parseFormat2_desc {lines : List (List Char)} {tx : ParsedTransaction}
    (h : parseFormat2 lines = some tx) : tx.description ≠ [] := by
  rw [parseFormat2, Option.bind_eq_some] at h
  obtain ⟨st, _, h2⟩ := h
  exact f2Finalize_desc h2

lemma parseFormat3_desc {t : List Char} {tx : ParsedTransaction}
    (h : parseFormat3 t = some tx) : tx.description ≠ [] := by
  simp only [parseFormat3] at h
  split at h
  · simp at h
  · split at h
    · simp at h
    · split at h
      · simp at h
      · split at h
        · simp at h
        · split at h
          · simp at h
          · split at h
            · simp at h
            · split at h
              · simp at h
              · rename_i hne
                rw [Option.some_inj] at h
                subst h
                simpa using hne

/-- Every success of `parseTransaction` has a non-empty description
unless it was produced by the single-line labeled extractor. -/
lemma parseTransaction_desc_or_single {s : List Char} {tx : ParsedTransaction}
    (h : parseTransaction s = some tx) :
    tx.description ≠ [] ∨ parseFormat1SingleLine (normalize s) = some tx := by
  simp only [parseTransaction] at h
  split at h
  · simp only [labeledDispatch] at h
    split at h
    · split at h
      · rename_i tx0 hsl
        rw [Option.some_inj] at h
        subst h
        exact Or.inr hsl
      · exact Or.inl (parseFormat1_desc h)
    · exact Or.inl (parseFormat1_desc h)
  · split at h
    · exact Or.inl (parseFormat2_desc h)
    · split at h
      · exact Or.inl (parseFormat3_desc h)
      · exact Or.inl (parseFormat3_desc h)

/-! ### Single-line fallback lemmas -/

lemma parseFormat1_nil : parseFormat1 [] = none := by rfl

lemma parseFormat1_singleton (l : List Char) : parseFormat1 [l] = none := by
  simp only [parseFormat1, List.foldlM_cons, List.foldlM_nil]
  rw [f1Step]
  split
  · rename_i cap hcap
    cases hpd : parseDate (jsTrim cap) with
    | none => simp [hpd]
    | some d => simp [hpd, f1Finalize, f1Init]
  · split
    · simp [f1Finalize, f1Init]
    · split
      · rename_i cap hcap
        cases hpa : parseAmount (jsTrim cap) false with
        | none => simp [hpa]
        | some a => simp [hpa, f1Finalize, f1Init]
      · split
        · rename_i cap hcap
          cases hpb : parseBalance (jsTrim cap) with
          | none => simp [hpb]
          | some b => simp [hpb, f1Finalize, f1Init]
        · simp [f1Finalize, f1Init]

lemma splitCh_no_sep {l : List Char} (h : l.contains '\n' = false) :
    splitCh '\n' l = [l] := by
  induction l with
  | nil => rfl
  | cons c cs ih =>
    simp only [List.contains_cons, Bool.or_eq_false_iff] at h
    have hc : (c == '\n') = false := by
      rw [Bool.eq_false_iff]
      intro hx
      rw [beq_iff_eq] at hx
      rw [hx] at h
      simp at h
    rw [splitCh, hc, ih h.2]
    simp

lemma mkLines_no_nl {n : List Char} (h : n.contains '\n' = false) :
    mkLines n = if (jsTrim n).isEmpty then [] else [jsTrim n] := by
  rw [mkLines, splitCh_no_sep h]
  cases he : (jsTrim n).isEmpty <;> simp [List.filter, he]

/-! ### Batch-parsing lemmas -/

lemma foldl_pushTx_eq_filterMap :
    ∀ (l : List (List Char)) (acc : List ParsedTransaction),
      l.foldl pushTx acc = acc ++ l.filterMap parseTransaction := by
  intro l
  induction l with
  | nil => intro acc; simp
  | cons a t ih =>
    intro acc
    rw [List.foldl_cons, List.filterMap_cons, pushTx]
    cases hf : parseTransaction a with
    | none => rw [ih]
    | some x => rw [ih]; simp

/-! ### Last-occurrence lemmas for the multi-line labeled format -/

lemma lastSomeAux_acc {α β : Type} (f : α → Option β) :
    ∀ (xs : List α) (acc : Option β),
      lastSomeAux f acc xs =
        match lastSomeAux f none xs with
        | some c => some c
        | none => acc := by
  intro xs
  induction xs with
  | nil => intro acc; simp [lastSomeAux]
  | cons x t ih =>
    intro acc
    rw [lastSomeAux, lastSomeAux]
    cases hfx : f x with
    | none => exact ih acc
    | some v =>
      rw [ih]
      cases lastSomeAux f none t <;> simp

lemma lastSome_cons {α β : Type} (f : α → Option β) (x : α) (t : List α) :
    lastSome f (x :: t) =
      match lastSome f t with
      | some c => some c
      | none => f x := by
  rw [lastSome, lastSomeAux, lastSomeAux_acc]
  rw [lastSome]
  cases lastSomeAux f none t <;> cases f x <;> simp

/-- Generic invariant of the Format 1 line fold: a field projection `g`
whose step behaviour is determined by a per-line capture function `f`
ends up holding the interpretation of the last line on which `f`
fires. -/
lemma foldlM_field_inv {γ : Type} (f : List Char → Option (List Char))
    (g : F1State → γ) (interp : List Char → γ)
    (hstep : ∀ st l st1, f1Step st l = some st1 →
      (∀ cap, f l = some cap → g st1 = interp cap) ∧ (f l = none → g st1 = g st)) :
    ∀ (ls : List (List Char)) (st st' : F1State),
      List.foldlM f1Step st ls = some st' →
      (∀ cap, lastSome f ls = some cap → g st' = interp cap) ∧
      (lastSome f ls = none → g st' = g st) := by
  intro ls
  induction ls with
  | nil =>
    intro st st' h
    simp only [List.foldlM_nil] at h
    rw [Option.some_inj.mp h]
    constructor
    · intro cap hcap
      simp [lastSome, lastSomeAux] at hcap
    · intro _
      rfl
  | cons l t ih =>
    intro st st' h
    rw [List.foldlM_cons] at h
    rcases h1 : f1Step st l with _ | st1
    · rw [h1] at h
      simp at h
    obtain ⟨ihs, ihn⟩ := ih st1 st' (by simpa [h1] using h)
    obtain ⟨hs1, hn1⟩ := hstep st l st1 h1
    rw [lastSome_cons]
    cases hL : lastSome f t with
    | some c =>
      refine ⟨fun cap hcap => ?_, fun hcap => ?_⟩
      · rw [Option.some_inj] at hcap
        subst hcap
        exact ihs _ hL
      · exact Option.noConfusion hcap
    | none =>
      refine ⟨fun cap hcap => ?_, fun hcap => ?_⟩
      · rw [ihn hL]
        exact hs1 cap hcap
      · rw [ihn hL]
        exact hn1 hcap

lemma f1Step_date_compat : ∀ (st : F1State) (l : List Char) (st1 : F1State),
    f1Step st l = some st1 →
    (∀ cap, lineDateCap l = some cap → st1.date = parseDate (jsTrim cap)) ∧
    (lineDateCap l = none → st1.date = st.date) := by
  intro st l st1 h
  rw [f1Step] at h
  split at h
  · rename_i cap hcap
    rw [Option.map_eq_some'] at h
    obtain ⟨d, hd, hst⟩ := h
    subst hst
    simp only [lineDateCap, hcap]
    refine ⟨fun cap' hc' => ?_, fun hx => Option.noConfusion hx⟩
    rw [Option.some_inj] at hc'
    subst hc'
    exact hd.symm
  · rename_i hdate
    simp only [lineDateCap, hdate]
    refine ⟨fun cap hcap => Option.noConfusion hcap, fun _ => ?_⟩
    split at h
    · rw [Option.some_inj] at h
      subst h
      rfl
    · split at h
      · rw [Option.map_eq_some'] at h
        obtain ⟨a, _, hst⟩ := h
        subst hst
        rfl
      · split at h
        · rw [Option.map_eq_some'] at h
          obtain ⟨b, _, hst⟩ := h
          subst hst
          rfl
        · rw [Option.some_inj] at h
          subst h
          rfl

lemma f1Step_desc_compat : ∀ (st : F1State) (l : List Char) (st1 : F1State),
    f1Step st l = some st1 →
    (∀ cap, lineDescCap l = some cap → st1.description = jsTrim cap) ∧
    (lineDescCap l = none → st1.description = st.description) := by
  intro st l st1 h
  rw [f1Step] at h
  split at h
  · rename_i cap hcap
    rw [Option.map_eq_some'] at h
    obtain ⟨d, hd, hst⟩ := h
    subst hst
    simp only [lineDescCap, hcap]
    exact ⟨fun cap' hc' => Option.noConfusion hc', fun _ => by trivial⟩
  · rename_i hdate
    split at h
    · rename_i cap hcap
      rw [Option.some_inj] at h
      subst h
      simp only [lineDescCap, hdate, hcap]
      refine ⟨fun cap' hc' => ?_, fun hx => Option.noConfusion hx⟩
      rw [Option.some_inj] at hc'
      subst hc'
      rfl
    · rename_i hdesc
      simp only [lineDescCap, hdate, hdesc]
      refine ⟨fun cap hcap => Option.noConfusion hcap, fun _ => ?_⟩
      split at h
      · rw [Option.map_eq_some'] at h
        obtain ⟨a, _, hst⟩ := h
        subst hst
        rfl
      · split at h
        · rw [Option.map_eq_some'] at h
          obtain ⟨b, _, hst⟩ := h
          subst hst
          rfl
        · rw [Option.some_inj] at h
          subst h
          rfl

lemma f1Step_amount_compat : ∀ (st : F1State) (l : List Char) (st1 : F1State),
    f1Step st l = some st1 →
    (∀ cap, lineAmountCap l = some cap →
      st1.amount = parseAmount (jsTrim cap) false) ∧
    (lineAmountCap l = none → st1.amount = st.amount) := by
  intro st l st1 h
  rw [f1Step] at h
  split at h
  · rename_i cap hcap
    rw [Option.map_eq_some'] at h
    obtain ⟨d, hd, hst⟩ := h
    subst hst
    simp only [lineAmountCap, hcap]
    exact ⟨fun cap' hc' => Option.noConfusion hc', fun _ => by trivial⟩
  · rename_i hdate
    split at h
    · rename_i cap hcap
      rw [Option.some_inj] at h
      subst h
      simp only [lineAmountCap, hdate, hcap]
      exact ⟨fun cap' hc' => Option.noConfusion hc', fun _ => by trivial⟩
    · rename_i hdesc
      split at h
      · rename_i cap hcap
        rw [Option.map_eq_some'] at h
        obtain ⟨a, ha, hst⟩ := h
        subst hst
        simp only [lineAmountCap, hdate, hdesc, hcap]
        refine ⟨fun cap' hc' => ?_, fun hx => Option.noConfusion hx⟩
        rw [Option.some_inj] at hc'
        subst hc'
        exact ha.symm
      · rename_i hamt
        simp only [lineAmountCap, hdate, hdesc, hamt]
        refine ⟨fun cap hcap => Option.noConfusion hcap, fun _ => ?_⟩
        split at h
        · rw [Option.map_eq_some'] at h
          obtain ⟨b, _, hst⟩ := h
          subst hst
          rfl
        · rw [Option.some_inj] at h
          subst h
          rfl

lemma f1Step_balance_compat : ∀ (st : F1State) (l : List Char) (st1 : F1State),
    f1Step st l = some st1 →
    (∀ cap, lineBalanceCap l = some cap →
      st1.balance = parseBalance (jsTrim cap)) ∧
    (lineBalanceCap l = none → st1.balance = st.balance) := by
  intro st l st1 h
  rw [f1Step] at h
  split at h
  · rename_i cap hcap
    rw [Option.map_eq_some'] at h
    obtain ⟨d, hd, hst⟩ := h
    subst hst
    simp only [lineBalanceCap, hcap]
    exact ⟨fun cap' hc' => Option.noConfusion hc', fun _ => by trivial⟩
  · rename_i hdate
    split at h
    · rename_i cap hcap
      rw [Option.some_inj] at h
      subst h
      simp only [lineBalanceCap, hdate, hcap]
      exact ⟨fun cap' hc' => Option.noConfusion hc', fun _ => by trivial⟩
    · rename_i hdesc
      split at h
      · rename_i cap hcap
        rw [Option.map_eq_some'] at h
        obtain ⟨a, _, hst⟩ := h
        subst hst
        simp only [lineBalanceCap, hdate, hdesc, hcap]
        exact ⟨fun cap' hc' => Option.noConfusion hc', fun _ => by trivial⟩
      · rename_i hamt
        split at h
        · rename_i cap hcap
          rw [Option.map_eq_some'] at h
          obtain ⟨b, hb, hst⟩ := h
          subst hst
          simp only [lineBalanceCap, hdate, hdesc, hamt, hcap]
          refine ⟨fun cap' hc' => ?_, fun hx => Option.noConfusion hx⟩
          rw [Option.some_inj] at hc'
          subst hc'
          exact hb.symm
        · rename_i hbal
          simp only [lineBalanceCap, hdate, hdesc, hamt, hbal]
          refine ⟨fun cap hcap => Option.noConfusion hcap, fun _ => ?_⟩
          rw [Option.some_inj] at h
          subst h
          rfl


lemma f1Finalize_fields {st : F1State} {tx : ParsedTransaction}
    (h : f1Finalize st = some tx) :
    st.date = some tx.date ∧ st.description = tx.description ∧
    st.amount = some tx.amount ∧ st.balance = some tx.balance := by
  obtain ⟨od, desc, oa, ob⟩ := st
  cases od with
  | none => exact Option.noConfusion h
  | some d =>
  cases oa with
  | none => exact Option.noConfusion h
  | some a =>
  cases ob with
  | none => exact Option.noConfusion h
  | some b =>
  simp only [f1Finalize] at h
  split at h
  · exact Option.noConfusion h
  · rw [Option.some_inj] at h
    subst h
    exact ⟨rfl, rfl, rfl, rfl⟩

/-- In multi-line labeled parsing, each returned field is the one
extracted from the last line matching that field's label. -/
lemma parseFormat1_lastWins {lines : List (List Char)} {tx : ParsedTransaction}
    (h : parseFormat1 lines = some tx) :
    (∀ cap, lastSome lineDateCap lines = some cap →
      parseDate (jsTrim cap) = some tx.date) ∧
    (∀ cap, lastSome lineDescCap lines = some cap →
      jsTrim cap = tx.description) ∧
    (∀ cap, lastSome lineAmountCap lines = some cap →
      parseAmount (jsTrim cap) false = some tx.amount) ∧
    (∀ cap, lastSome lineBalanceCap lines = some cap →
      parseBalance (jsTrim cap) = some tx.balance) := by
  rw [parseFormat1, Option.bind_eq_some] at h
  obtain ⟨st, hfold, hfin⟩ := h
  obtain ⟨hdate, hdesc, hamt, hbal⟩ := f1Finalize_fields hfin
  refine ⟨fun cap hcap => ?_, fun cap hcap => ?_, fun cap hcap => ?_, fun cap hcap => ?_⟩
  · have := (foldlM_field_inv lineDateCap (fun st => st.date)
      (fun cap => parseDate (jsTrim cap)) f1Step_date_compat lines f1Init st hfold).1 cap hcap
    rw [← this, hdate]
  · have := (foldlM_field_inv lineDescCap (fun st => st.description)
      (fun cap => jsTrim cap) f1Step_desc_compat lines f1Init st hfold).1 cap hcap
    rw [← this, hdesc]
  · have := (foldlM_field_inv lineAmountCap (fun st => st.amount)
      (fun cap => parseAmount (jsTrim cap) false) f1Step_amount_compat lines f1Init st hfold).1 cap hcap
    rw [← this, hamt]
  · have := (foldlM_field_inv lineBalanceCap (fun st => st.balance)
      (fun cap => parseBalance (jsTrim cap)) f1Step_balance_compat lines f1Init st hfold).1 cap hcap
    rw [← this, hbal]

/-! ### Compact-format amount sign lemmas -/

lemma moneyCapAt_chars {r cap : List Char} (h : moneyCapAt r = some cap) :
    ∀ c ∈ cap, isDigitCh c = true ∨ c = ',' ∨ c = '.' := by
  simp only [moneyCapAt] at h
  split at h
  · exact Option.noConfusion h
  · split at h
    · rename_i d1 d2 rest heq
      split at h
      · rename_i hd
        rw [Option.some_inj] at h
        subst h
        intro c hc
        rw [List.mem_append] at hc
        rcases hc with hc | hc
        · have hdc := List.mem_takeWhile_imp hc
          rw [isDigitComma, Bool.or_eq_true] at hdc
          rcases hdc with hx | hx
          · exact Or.inl hx
          · exact Or.inr (Or.inl (by rwa [beq_iff_eq] at hx))
        · rw [Bool.and_eq_true] at hd
          simp only [List.mem_cons, List.not_mem_nil, or_false] at hc
          rcases hc with rfl | rfl | rfl
          · exact Or.inr (Or.inr rfl)
          · exact Or.inl hd.1
          · exact Or.inl hd.2
      · exact Option.noConfusion h
    · exact Option.noConfusion h

lemma searchAmtIdx_chars : ∀ (l : List Char) (i : Nat) (p : Nat × List Char),
    searchAmtIdx i l = some p →
    ∀ c ∈ p.2, isDigitCh c = true ∨ c = ',' ∨ c = '.' := by
  intro l
  induction l with
  | nil => intro i p h; exact Option.noConfusion h
  | cons c cs ih =>
    intro i p h
    rw [searchAmtIdx] at h
    split at h
    · split at h
      · rename_i cap hcap
        rw [Option.some_inj] at h
        subst h
        exact moneyCapAt_chars hcap
      · exact ih _ _ h
    · exact ih _ _ h

lemma searchAmtIdx_no_minus {l : List Char} {i : Nat} {p : Nat × List Char}
    (h : searchAmtIdx i l = some p) : '-' ∉ p.2 := by
  intro hmem
  rcases searchAmtIdx_chars l i p h '-' hmem with hx | hx | hx
  · exact absurd hx (by decide)
  · exact absurd hx (by decide)
  · exact absurd hx (by decide)

lemma cleanMoney_head_ne_minus {cap : List Char} (h : '-' ∉ cap) :
    (cleanMoney cap).head? ≠ some '-' := by
  intro hx
  have hmem : '-' ∈ cleanMoney cap := by
    cases hcm : cleanMoney cap with
    | nil => rw [hcm] at hx; exact Option.noConfusion hx
    | cons a t =>
      rw [hcm] at hx
      simp only [List.head?_cons, Option.some_inj] at hx
      subst hx
      exact List.mem_cons_self _ _
  rw [cleanMoney, List.mem_filter] at hmem
  exact h hmem.1

/-- The sign behaviour of `parseAmount` on a capture that cannot carry
a minus sign: the debit flag decides everything. -/
lemma parseAmount_flag_sign {cap : List Char} {flag : Bool} {a : JsNum}
    (hnm : '-' ∉ cap) (h : parseAmount cap flag = some a) :
    ∃ v : JsNum, 0 ≤ v.num ∧ a = (if flag then JsNum.negate v else v) := by
  simp only [parseAmount] at h
  split at h
  · exact Option.noConfusion h
  · rename_i v hv
    rw [Option.some_inj] at h
    have hne := cleanMoney_head_ne_minus hnm
    have hbeq : ((cleanMoney cap).head? == some '-') = false := by
      rw [Bool.eq_false_iff]
      intro hb
      exact hne (by rwa [beq_iff_eq] at hb)
    rw [hbeq, Bool.or_false] at h
    rw [jsParseFloat, cleanMoney_dropWhile] at hv
    have hv0 : 0 ≤ v.num := jsParseFloatCore_num_nonneg hv hne
    have habs : JsNum.absVal v = v := JsNum.absVal_of_nonneg hv0
    refine ⟨v, hv0, ?_⟩
    rw [← h]
    cases flag with
    | true => simp [habs]
    | false => simp

/-- In the Compact handler the amount's sign is decided exactly by the
case-insensitive substring test `/Dr|Debit|debited/i` over the whole
text. -/
lemma parseFormat3_amount_sign {t : List Char} {tx : ParsedTransaction}
    (h : parseFormat3 t = some tx) :
    ∃ v : JsNum, 0 ≤ v.num ∧
      tx.amount = (if hasDebitMarkerText t then JsNum.negate v else v) := by
  simp only [parseFormat3] at h
  split at h
  · exact Option.noConfusion h
  · rename_i q hiso
    split at h
    · exact Option.noConfusion h
    · split at h
      · exact Option.noConfusion h
      · rename_i p hamt
        split at h
        · exact Option.noConfusion h
        · rename_i amt hpa
          split at h
          · exact Option.noConfusion h
          · split at h
            · exact Option.noConfusion h
            · split at h
              · exact Option.noConfusion h
              · rw [Option.some_inj] at h
                subst h
                exact parseAmount_flag_sign (searchAmtIdx_no_minus hamt) hpa

/-! ### Dispatch and batch characterization lemmas -/

/-- When a genuinely single-line labeled input fails single-line
extraction, the multi-line fallback runs on at most one line and the
whole parse fails. -/
lemma parseTransaction_singleline_fail {s : List Char}
    (hc : containsCI (normalize s) litDateLabel = true)
    (hn : (normalize s).contains '\n' = false)
    (hsl : parseFormat1SingleLine (normalize s) = none) :
    parseTransaction s = none := by
  simp only [parseTransaction, hc, if_true]
  simp only [labeledDispatch, hn, Bool.not_false, Bool.or_true, if_true]
  rw [hsl]
  show parseFormat1 (mkLines (normalize s)) = none
  rw [mkLines_no_nl hn]
  split
  · exact parseFormat1_nil
  · exact parseFormat1_singleton _

lemma parseMultipleTransactions_eq (t : List Char) :
    parseMultipleTransactions t =
      (if ((nonBlankBlocks t).filterMap parseTransaction).isEmpty then
         match parseTransaction t with
         | some tx => some [tx]
         | none => none
       else some ((nonBlankBlocks t).filterMap parseTransaction)) := by
  rw [parseMultipleTransactions,
    foldl_pushTx_eq_filterMap (nonBlankBlocks t) [], List.nil_append]

lemma parseMultipleTransactions_none_iff (t : List Char) :
    parseMultipleTransactions t = none ↔
      ((nonBlankBlocks t).filterMap parseTransaction = [] ∧ parseTransaction t = none) := by
  rw [parseMultipleTransactions_eq]
  cases he : ((nonBlankBlocks t).filterMap parseTransaction).isEmpty
  · rw [if_neg (by simp [he])]
    rw [List.isEmpty_eq_false] at he
    simp [he]
  · rw [if_pos rfl]
    rw [List.isEmpty_iff] at he
    cases hpt : parseTransaction t with
    | none => simp [he]
    | some tx => simp [he]

/-! ## Claims -/

/-- C1: every input string of the shape `D[D]/D[D]/YYYY` is interpreted
by the date parser as month/day/year (the first field is the month
handed to the `Date.UTC` constructor); in particular "12/11/2025"
yields the UTC calendar date December 11, 2025 — never November 12 —
both directly and via `parseTransaction` on the inline/arrow scenario
that extracts it. -/
theorem C1_slash_dates_month_day_year :
    (∀ ms ds ys : List Char,
      (ms.length = 1 ∨ ms.length = 2) → (∀ c ∈ ms, isDigitCh c = true) →
      (ds.length = 1 ∨ ds.length = 2) → (∀ c ∈ ds, isDigitCh c = true) →
      ys.length = 4 → (∀ c ∈ ys, isDigitCh c = true) →
      parseDate (ms ++ '/' :: (ds ++ '/' :: ys)) =
        some (jsDateUTC (digitsToNat ys) ((digitsToNat ms : Int) - 1) (digitsToNat ds))) ∧
    parseDate ("12/11/2025".toList) = some (utcMidnightMs 2025 12 11) ∧
    utcMidnightMs 2025 12 11 ≠ utcMidnightMs 2025 11 12 ∧
    parseTransaction scenario3 = some uberTx ∧
    uberTx.date = utcMidnightMs 2025 12 11 := by
  refine ⟨fun ms ds ys hm hmd hd hdd hy hyd => parseDate_slash hm hmd hd hdd hy hyd,
    by decide, by decide, by decide, by decide⟩

/-- C1 witness: the general slash-shape statement applied at the
concrete digit strings of "12/11/2025". -/
theorem C1_witness_slash_digits :
    ((['1', '2'] : List Char).length = 1 ∨ (['1', '2'] : List Char).length = 2) ∧
    (∀ c ∈ (['1', '2'] : List Char), isDigitCh c = true) ∧
    parseDate (['1', '2'] ++ '/' :: (['1', '1'] ++ '/' :: ['2', '0', '2', '5'])) =
      some (jsDateUTC (digitsToNat ['2', '0', '2', '5'])
        ((digitsToNat ['1', '2'] : Int) - 1) (digitsToNat ['1', '1'])) :=
  ⟨Or.inr rfl, by decide,
    C1_slash_dates_month_day_year.1 ['1', '2'] ['1', '1'] ['2', '0', '2', '5']
      (Or.inr rfl) (by decide) (Or.inr rfl) (by decide) rfl (by decide)⟩

/-- C2 counterexample: `parseTransaction` succeeds on a single-line
labeled input whose `Description:` label is directly followed by
`Amount:`, returning a record with an empty description — a
partially-populated record does leak out of the single-line path. -/
theorem C2_counterexample_empty_description :
    parseTransaction inputEmptyDesc =
      some ⟨utcMidnightMs 2025 12 11, [], ⟨-42000, 2⟩, ⟨1842050, 2⟩⟩ := by
  decide

/-- C2 amended: every success of `parseTransaction` has a fully
resolved, non-empty description, except when the result was produced
by the single-line labeled extractor, which omits the emptiness check
its multi-line sibling performs. -/
theorem C2_amended_no_partial_fields (s : List Char) (tx : ParsedTransaction)
    (h : parseTransaction s = some tx) :
    tx.description ≠ [] ∨ parseFormat1SingleLine (normalize s) = some tx :=
  parseTransaction_desc_or_single h

/-- C2 witness: the amended statement applied to scenario 1. -/
theorem C2_witness_nonempty_description :
    parseTransaction scenario1 = some starbucksTx ∧
    (starbucksTx.description ≠ [] ∨
      parseFormat1SingleLine (normalize scenario1) = some starbucksTx) :=
  ⟨by decide, C2_amended_no_partial_fields scenario1 starbucksTx (by decide)⟩

/-- C3 counterexample: the Compact handler's debit test is a substring
test, so the text `Laundromat` (which contains the letter pair `dr`)
makes the amount negative although no debit marker token `Dr`, `Debit`
or `debited` is present anywhere in the text. -/
theorem C3_counterexample_laundromat :
    parseFormat3 inputLaundromat =
      some ⟨utcMidnightMs 2025 12 10, "Laundromat".toList, ⟨-10000, 2⟩, ⟨50000, 2⟩⟩ ∧
    specDebitTokenPresent inputLaundromat = false ∧
    (JsNum.val ⟨-10000, 2⟩) < 0 := by
  refine ⟨by decide, by decide, by norm_num [JsNum.val]⟩

/-- C3 amended: in the Compact handler the extracted amount is negative
iff the case-insensitive SUBSTRING `Dr`, `Debit` or `debited` occurs
anywhere in the text (not necessarily as a standalone token) and the
matched numeral is nonzero; with no such substring the amount is
non-negative. -/
theorem C3_amended_substring_sign (t : List Char) (tx : ParsedTransaction)
    (h : parseFormat3 t = some tx) :
    (hasDebitMarkerText t = true → tx.amount.val ≤ 0) ∧
    (hasDebitMarkerText t = false → 0 ≤ tx.amount.val) ∧
    (tx.amount.val < 0 ↔ hasDebitMarkerText t = true ∧ tx.amount.val ≠ 0) := by
  obtain ⟨v, hv0, hEq⟩ := parseFormat3_amount_sign h
  have hvv : 0 ≤ v.val := (JsNum.val_nonneg_iff v).mpr hv0
  cases hm : hasDebitMarkerText t with
  | true =>
    rw [hm, if_pos rfl] at hEq
    have hval : tx.amount.val = -v.val := by rw [hEq, JsNum.val_negate]
    refine ⟨fun _ => ?_, fun hf => absurd hf (by decide), ?_⟩
    · rw [hval]
      exact neg_nonpos.mpr hvv
    · constructor
      · intro hlt
        exact ⟨rfl, ne_of_lt hlt⟩
      · rintro ⟨_, hne⟩
        rw [hval] at hne ⊢
        have hne2 : v.val ≠ 0 := fun h0 => hne (by rw [h0, neg_zero])
        exact neg_lt_zero.mpr (lt_of_le_of_ne hvv (Ne.symm hne2))
  | false =>
    rw [hm] at hEq
    simp only [Bool.false_eq_true, if_false] at hEq
    refine ⟨fun ht => absurd ht (by decide), fun _ => ?_, ?_⟩
    · rw [hEq]
      exact hvv
    · constructor
      · intro hlt
        rw [hEq] at hlt
        exact absurd hlt (not_lt.mpr hvv)
      · rintro ⟨hc, _⟩
        exact absurd hc (by decide)

/-- C3 witness: the amended statement applied to the Laundromat
input (substring present, amount forced negative). -/
theorem C3_witness_substring_sign :
    parseFormat3 inputLaundromat =
      some ⟨utcMidnightMs 2025 12 10, "Laundromat".toList, ⟨-10000, 2⟩, ⟨50000, 2⟩⟩ ∧
    hasDebitMarkerText inputLaundromat = true ∧
    (ParsedTransaction.mk (utcMidnightMs 2025 12 10) ("Laundromat".toList)
      ⟨-10000, 2⟩ ⟨50000, 2⟩).amount.val ≤ 0 :=
  ⟨by decide, by decide,
    (C3_amended_substring_sign inputLaundromat _ (by decide)).1 (by decide)⟩

/-- C4: for every amount string whose cleaned numeral parses, and every
debit flag: if the cleaned numeral is negative or the flag is set the
returned amount is `-abs(value)`, otherwise `+abs(value)` — an explicit
minus sign and a debit marker are equivalent and non-conflicting. -/
theorem C4_amount_sign_rule (s : List Char) (flag : Bool) (v : JsNum)
    (h : jsParseFloat (cleanMoney s) = some v) :
    parseAmount s flag =
      some (if flag = true ∨ v.val < 0 then JsNum.negate (JsNum.absVal v)
            else JsNum.absVal v) :=
  parseAmount_eq flag h

/-- C4 witness: the sign rule applied to `₹1,250.00` with the debit
flag set, yielding the negative amount −1250. -/
theorem C4_witness_amount_sign :
    jsParseFloat (cleanMoney ("₹1,250.00".toList)) = some ⟨125000, 2⟩ ∧
    parseAmount ("₹1,250.00".toList) true = some ⟨-125000, 2⟩ ∧
    (JsNum.val ⟨-125000, 2⟩) = -1250 := by
  refine ⟨by decide, ?_, by norm_num [JsNum.val]⟩
  have h := C4_amount_sign_rule ("₹1,250.00".toList) true ⟨125000, 2⟩ (by decide)
  rw [if_pos (Or.inl rfl)] at h
  exact h

/-- C5 counterexample: a single-line labeled input with all four labels
present (out of label order) fails single-line extraction, and the
fall back to multi-line parsing of the same text also fails —
`parseTransaction` does not succeed as the claim states. -/
theorem C5_counterexample_out_of_order :
    containsCI inputOutOfOrder litDateLabel = true ∧
    containsCI inputOutOfOrder litDescLabel = true ∧
    containsCI inputOutOfOrder litAmountLabel = true ∧
    containsCI inputOutOfOrder litBalanceWord = true ∧
    (normalize inputOutOfOrder).contains '\n' = false ∧
    parseFormat1SingleLine (normalize inputOutOfOrder) = none ∧
    parseTransaction inputOutOfOrder = none := by
  refine ⟨by decide, by decide, by decide, by decide, by decide, by decide, by decide⟩

/-- C5 amended: when single-line extraction fails, `parseTransaction`
does fall back to multi-line parsing of the same text, but multi-line
parsing of a genuinely single-line input can populate at most one field
and therefore always fails: such inputs never succeed. -/
theorem C5_amended_fallback_never_succeeds :
    (∀ l : List Char, parseFormat1 [l] = none) ∧
    (∀ s : List Char, containsCI (normalize s) litDateLabel = true →
      (normalize s).contains '\n' = false →
      parseFormat1SingleLine (normalize s) = none →
      parseTransaction s = none) :=
  ⟨parseFormat1_singleton,
    fun _ hc hn hsl => parseTransaction_singleline_fail hc hn hsl⟩

/-- C5 witness: the amended statement applied to the lone line
`Date: 11 Dec 2025`. -/
theorem C5_witness_fallback_failure :
    parseFormat1 ["Date: 11 Dec 2025".toList] = none ∧
    (containsCI (normalize ("Date: 11 Dec 2025".toList)) litDateLabel = true ∧
     (normalize ("Date: 11 Dec 2025".toList)).contains '\n' = false ∧
     parseFormat1SingleLine (normalize ("Date: 11 Dec 2025".toList)) = none) ∧
    parseTransaction ("Date: 11 Dec 2025".toList) = none :=
  ⟨C5_amended_fallback_never_succeeds.1 _,
    ⟨by decide, by decide, by decide⟩,
    C5_amended_fallback_never_succeeds.2 _ (by decide) (by decide) (by decide)⟩

/-- C6 counterexample: a labeled input whose date string is parsed by
the native `new Date` fallback (an ISO date-time with a `Z` offset)
makes `parseTransaction` succeed with a date carrying the nonzero UTC
time-of-day 05:00:00. -/
theorem C6_counterexample_fallback_time :
    parseTransaction inputFallbackTime =
      some ⟨utcMidnightMs 2025 12 10 + 18000000, ['X'], ⟨500, 2⟩, ⟨1000, 2⟩⟩ ∧
    (utcMidnightMs 2025 12 10 + 18000000) % 86400000 ≠ 0 := by
  refine ⟨by decide, by decide⟩

/-- C6 amended: every date parsed through one of the three explicit
shapes (`DD Mon YYYY`, `D[D]/D[D]/YYYY`, `YYYY-MM-DD`) is a UTC
calendar date with zero time-of-day; only the generic `new Date`
fallback can produce a nonzero time-of-day. -/
theorem C6_amended_explicit_shapes_midnight (s : List Char) (t : Int)
    (h : parseDate s = some t)
    (hs : (dmyFull s).isSome ∨ (slashFull s).isSome ∨ (isoFull s).isSome) :
    t % 86400000 = 0 :=
  parseDate_shapes_midnight h hs

/-- C6 witness: the amended statement applied to `11 Dec 2025`. -/
theorem C6_witness_midnight :
    parseDate ("11 Dec 2025".toList) = some (utcMidnightMs 2025 12 11) ∧
    (dmyFull ("11 Dec 2025".toList)).isSome = true ∧
    utcMidnightMs 2025 12 11 % 86400000 = 0 :=
  ⟨by decide, by decide,
    C6_amended_explicit_shapes_midnight ("11 Dec 2025".toList) _ (by decide)
      (Or.inl (by decide))⟩

set_option maxRecDepth 100000 in
/-- C7: the batch parser splits on blank-line boundaries, attempts
`parseTransaction` on each non-blank block, collects exactly the
successes without raising; it fails iff no block succeeds and the
entire input also fails as a single transaction; on one well-formed
block plus one garbage block it returns exactly the one transaction. -/
theorem C7_batch_skip_and_collect :
    (∀ t : List Char,
      parseMultipleTransactions t =
        if ((nonBlankBlocks t).filterMap parseTransaction).isEmpty then
          (parseTransaction t).map (fun tx => [tx])
        else some ((nonBlankBlocks t).filterMap parseTransaction)) ∧
    (∀ t : List Char,
      parseMultipleTransactions t = none ↔
        ((nonBlankBlocks t).filterMap parseTransaction = [] ∧
          parseTransaction t = none)) ∧
    parseMultipleTransactions batchInput = some [starbucksTx] := by
  refine ⟨fun t => ?_, parseMultipleTransactions_none_iff, by decide⟩
  rw [parseMultipleTransactions_eq]
  cases hpt : parseTransaction t <;> simp [hpt]

/-- C8: whenever the normalized text contains the case-insensitive
substring `Date:`, `parseTransaction` dispatches to the Labeled-format
branch and to nothing else, regardless of any arrow glyphs or date
patterns also present. -/
theorem C8_labeled_format_priority (s : List Char)
    (h : containsCI (normalize s) litDateLabel = true) :
    parseTransaction s = labeledDispatch (normalize s) := by
  simp only [parseTransaction, h, if_true]

/-- C8 witness: a labeled input that also contains an arrow glyph is
still routed to the Labeled branch. -/
theorem C8_witness_labeled_priority :
    containsCI (normalize inputLabeledArrow) litDateLabel = true ∧
    (normalize inputLabeledArrow).any isArrowGlyph = true ∧
    parseTransaction inputLabeledArrow = labeledDispatch (normalize inputLabeledArrow) :=
  ⟨by decide, by decide, C8_labeled_format_priority inputLabeledArrow (by decide)⟩

/-- C9: the date parser performs no range validation on slash dates:
every `D[D]/D[D]/YYYY` string parses successfully (the values are
normalized by the `Date.UTC` rollover, as "25/11/2025" rolling over to
January 11, 2027 shows), while the three-letter month-name shape can
fail on an invalid month name. -/
theorem C9_slash_no_range_validation :
    (∀ ms ds ys : List Char,
      (ms.length = 1 ∨ ms.length = 2) → (∀ c ∈ ms, isDigitCh c = true) →
      (ds.length = 1 ∨ ds.length = 2) → (∀ c ∈ ds, isDigitCh c = true) →
      ys.length = 4 → (∀ c ∈ ys, isDigitCh c = true) →
      (parseDate (ms ++ '/' :: (ds ++ '/' :: ys))).isSome = true) ∧
    parseDate ("25/11/2025".toList) = some (utcMidnightMs 2027 1 11) ∧
    parseDate ("11 Xyz 2025".toList) = none := by
  refine ⟨fun ms ds ys hm hmd hd hdd hy hyd => ?_, by decide, by decide⟩
  rw [parseDate_slash hm hmd hd hdd hy hyd]
  rfl

/-- C9 witness: the general part applied to the out-of-range month
string "25/11/2025". -/
theorem C9_witness_rollover :
    (∀ c ∈ (['2', '5'] : List Char), isDigitCh c = true) ∧
    (parseDate (['2', '5'] ++ '/' :: (['1', '1'] ++ '/' :: ['2', '0', '2', '5']))).isSome
      = true :=
  ⟨by decide,
    C9_slash_no_range_validation.1 ['2', '5'] ['1', '1'] ['2', '0', '2', '5']
      (Or.inr rfl) (by decide) (Or.inr rfl) (by decide) rfl (by decide)⟩

/-- C10: in multi-line labeled parsing, when several lines match the
same field label, the returned field value comes from the last matching
line — for each of the four fields. -/
theorem C10_last_occurrence_wins (lines : List (List Char)) (tx : ParsedTransaction)
    (h : parseFormat1 lines = some tx) :
    (∀ cap, lastSome lineDateCap lines = some cap →
      parseDate (jsTrim cap) = some tx.date) ∧
    (∀ cap, lastSome lineDescCap lines = some cap →
      jsTrim cap = tx.description) ∧
    (∀ cap, lastSome lineAmountCap lines = some cap →
      parseAmount (jsTrim cap) false = some tx.amount) ∧
    (∀ cap, lastSome lineBalanceCap lines = some cap →
      parseBalance (jsTrim cap) = some tx.balance) :=
  parseFormat1_lastWins h

/-- C10 witness: with two `Date:` lines the returned date is the one
from the second (last) line. -/
theorem C10_witness_duplicate_date :
    parseFormat1 dupDateLines = some dupTx ∧
    lastSome lineDateCap dupDateLines = some ("2025-12-10".toList) ∧
    parseDate (jsTrim ("2025-12-10".toList)) = some dupTx.date :=
  ⟨by decide, by decide,
    (C10_last_occurrence_wins dupDateLines dupTx (by decide)).1 _ (by decide)⟩

end TxParser
